import Mathlib

/-!
# reili: a per-visitor token-bucket rate limiter (Go)

A shallow embedding of `reili.go`.

* Time is a rational number of seconds; `5*time.Minute` is `300`.
* The Go map `map[interface{}]*visitor` is a finite map with unique keys
  (`AList`); a `*visitor` obtained from the map is the map slot of its key.
* The guard `mx` is part of the limiter state.  A call that has to wait for
  the guard yields `none`; the waiting is for ever, because no statement of
  the program that can be reached releases the exclusive lock.
* `rate.Limiter` (package `golang.org/x/time/rate`) is not part of the
  repository sources; it is modelled from the token-bucket section of the
  specification, in exact rational arithmetic.
* The clock readings taken inside one handler invocation, and inside one
  pass of the cleanup scan, are identified with a single instant `now`.
-/

/-- The key type of the visitors map: `IdentifyVisitor` returns a Go `string`. -/
abbrev VisitorID := String

/-- Modelled from the spec: the token bucket `rate.Limiter` of the external
package `golang.org/x/time/rate`, which is missing from the sources.  It holds
the configured `rate` and `capacity`, the current token level and the
last-update timestamp (`none` until the first consumption attempt). -/
structure Limiter where
  limit : ℚ
  burst : Int
  tokens : ℚ
  last : Option ℚ
  deriving DecidableEq

/-- Modelled from the spec: `rate.NewLimiter(r, b)`; missing from the sources.
"A freshly created bucket starts at full capacity (equal to burstCapacity)". -/
def NewLimiter (r : ℚ) (b : Int) : Limiter :=
  { limit := r, burst := b, tokens := (b : ℚ), last := none }

/-- Modelled from the spec: the refill half of the refill-and-consume
algorithm of `rate.Limiter`, missing from the sources: "compute elapsed seconds
since the bucket's last-update timestamp, add `elapsed * rate` tokens (capped
at `capacity`)". -/
def Limiter.refill (lim : Limiter) (now : ℚ) : ℚ :=
  let elapsed : ℚ := match lim.last with
    | none => 0
    | some l => now - l
  min (lim.burst : ℚ) (lim.tokens + elapsed * lim.limit)

/-- Modelled from the spec: `(*rate.Limiter).Allow()` at clock reading `now`,
missing from the sources: refill, "update the last-update timestamp to `t`,
then if current tokens ≥ 1, subtract 1 and succeed; otherwise fail and leave
the token level unchanged". -/
def Limiter.Allow (lim : Limiter) (now : ℚ) : Limiter × Bool :=
  let tokens := lim.refill now
  if 1 ≤ tokens then
    ({ lim with tokens := tokens - 1, last := some now }, true)
  else
    ({ lim with tokens := tokens, last := some now }, false)

/-- The Go struct `visitor`. -/
structure visitor where
  id : VisitorID
  limiter : Limiter
  lastSeen : ℚ
  deriving DecidableEq

/-- The Go map `map[interface{}]*visitor`. -/
abbrev VisitorMap := AList (fun _ : VisitorID => visitor)

/-- The state of a `sync.RWMutex`: whether the exclusive lock is held, and how
many read locks are held. -/
structure RWMutex where
  writer : Bool
  readers : ℕ
  deriving DecidableEq

/-- `mx.RLock()`: `none` when the caller has to wait.  Read locks are shared:
it succeeds whenever the exclusive lock is not held. -/
def RWMutex.RLock (mx : RWMutex) : Option RWMutex :=
  if mx.writer then none else some { mx with readers := mx.readers + 1 }

/-- `mx.RUnlock()`. -/
def RWMutex.RUnlock (mx : RWMutex) : RWMutex :=
  { mx with readers := mx.readers - 1 }

/-- `mx.Lock()`: `none` when the caller has to wait, which is whenever the
exclusive lock or a read lock is held (the mutex is not reentrant). -/
def RWMutex.Lock (mx : RWMutex) : Option RWMutex :=
  if mx.writer ∨ 0 < mx.readers then none else some { mx with writer := true }

/-- The Go struct `RateLimiter`.  `visitorIdentifier` is the `IdentifyVisitor`
method of the interface value: it returns a string and an error (`none` is
Go's `nil`). -/
structure RateLimiter (Req : Type) where
  requestsPerSecond : ℚ
  burstRequests : Int
  visitors : VisitorMap
  mx : RWMutex
  visitorIdentifier : Req → String × Option String

/-- `NewRateLimiter(rps, burstReq, identifier)`: the state it returns, with an
empty map and a free guard.  The goroutine it starts runs `cleanupVisitors`;
its passes are the `Event.cleanup` events of a run. -/
def NewRateLimiter {Req : Type} (rps : ℚ) (burstReq : Int)
    (identifier : Req → String × Option String) : RateLimiter Req :=
  { requestsPerSecond := rps
    burstRequests := burstReq
    visitors := ∅
    mx := { writer := false, readers := 0 }
    visitorIdentifier := identifier }

/-- `addVisitor(identifier)` at clock reading `now`: stores a new visitor with
a new limiter under `identifier` and returns `reili.visitors[identifier]`. -/
def addVisitor {Req : Type} (reili : RateLimiter Req) (identifier : VisitorID) (now : ℚ) :
    RateLimiter Req × visitor :=
  let limiter := NewLimiter reili.requestsPerSecond reili.burstRequests
  let v : visitor := { id := identifier, limiter := limiter, lastSeen := now }
  ({ reili with visitors := reili.visitors.insert identifier v }, v)

/-- The statements of `getVisitor(identifier)` that run with the read lock
granted, at clock reading `now`: lookup, `addVisitor` when the key is absent,
otherwise refresh `lastSeen` and return the stored visitor. -/
def getVisitorGranted {Req : Type} (reili : RateLimiter Req) (identifier : VisitorID) (now : ℚ) :
    RateLimiter Req × visitor :=
  match reili.visitors.lookup identifier with
  | none => addVisitor reili identifier now
  | some v =>
    let v' : visitor := { v with lastSeen := now }
    ({ reili with visitors := reili.visitors.insert identifier v' }, v')

/-- `getVisitor(identifier)` at clock reading `now`: `reili.mx.RLock()`, the
statements under the lock, and the deferred `reili.mx.RUnlock()` on return.
`none` when the call waits in `RLock`. -/
def getVisitor {Req : Type} (reili : RateLimiter Req) (identifier : VisitorID) (now : ℚ) :
    Option (RateLimiter Req × visitor) :=
  match reili.mx.RLock with
  | none => none
  | some mx =>
    let (reili1, v) := getVisitorGranted { reili with mx := mx } identifier now
    some ({ reili1 with mx := reili1.mx.RUnlock }, v)

/-- What a handler invocation does to the outside world, in order. -/
inductive Effect (W Req : Type) where
  | log (msg : String)
  | httpError (w : W) (body : String) (code : Nat)
  | serveHTTP (w : W) (r : Req)
  deriving DecidableEq

/-- The handler returned by `Limit(next)` with the read lock of its
`getVisitor` call granted: the new limiter state and the effects. -/
def LimitGranted {W Req : Type} (reili : RateLimiter Req) (now : ℚ) (w : W) (r : Req) :
    RateLimiter Req × List (Effect W Req) :=
  match reili.visitorIdentifier r with
  | (_, some err) =>
    (reili, [Effect.log err, Effect.httpError w "Internal Server Error" 500])
  | (id, none) =>
    let (reili1, reqVisitor) := getVisitorGranted reili id now
    let (lim, ok) := reqVisitor.limiter.Allow now
    let reili2 : RateLimiter Req :=
      { reili1 with visitors := reili1.visitors.insert id { reqVisitor with limiter := lim } }
    if ok == false then
      (reili2, [Effect.httpError w "Too Many Requests" 429])
    else
      (reili2, [Effect.serveHTTP w r])

/-- The handler returned by `Limit(next)`, invoked on `(w, r)` at clock reading
`now`: the new limiter state and the effects, or `none` when the call waits in
the `RLock` of `getVisitor` and does not return.  `serveHTTP w r` is the call
`next.ServeHTTP(w, r)`.  `Allow` mutates the limiter through the pointer
returned by `getVisitor`, which is the map slot of `id`. -/
def Limit {W Req : Type} (reili : RateLimiter Req) (now : ℚ) (w : W) (r : Req) :
    Option (RateLimiter Req × List (Effect W Req)) :=
  match reili.visitorIdentifier r with
  | (_, some err) =>
    some (reili, [Effect.log err, Effect.httpError w "Internal Server Error" 500])
  | (id, none) =>
    match getVisitor reili id now with
    | none => none
    | some (reili1, reqVisitor) =>
      let (lim, ok) := reqVisitor.limiter.Allow now
      let reili2 : RateLimiter Req :=
        { reili1 with visitors := reili1.visitors.insert id { reqVisitor with limiter := lim } }
      if ok == false then
        some (reili2, [Effect.httpError w "Too Many Requests" 429])
      else
        some (reili2, [Effect.serveHTTP w r])

/-- The `for id, v := range reili.visitors` loop of `cleanupVisitors` over the
entries still to visit: an entry not seen for more than 5 minutes is deleted
from the map. -/
def scanLoop (now : ℚ) : List (Sigma fun _ : VisitorID => visitor) → VisitorMap → VisitorMap
  | [], m => m
  | ⟨id, v⟩ :: rest, m =>
    scanLoop now rest (if now - v.lastSeen > 300 then m.erase id else m)

/-- One pass of the scan in `cleanupVisitors` at clock reading `now`. -/
def cleanupScan {Req : Type} (reili : RateLimiter Req) (now : ℚ) : RateLimiter Req :=
  { reili with visitors := scanLoop now reili.visitors.entries reili.visitors }

/-- What happens next: a request is handed to the handler of `Limit` at a clock
reading, or the goroutine of `cleanupVisitors` comes out of its sleep at a
clock reading. -/
inductive Event (W Req : Type) where
  | request (now : ℚ) (w : W) (r : Req)
  | cleanup (now : ℚ)

/-- The clock reading of an event. -/
def Event.time {W Req : Type} : Event W Req → ℚ
  | Event.request now _ _ => now
  | Event.cleanup now => now

/-- One event applied to the limiter: the new state, and the effects or `none`
when the goroutine waits for the guard.  A request runs the handler.  The
cleanup goroutine runs `reili.mx.Lock()`, `defer reili.mx.Unlock()` and the
scan; the deferred call is never run, because `cleanupVisitors` does not
return, so the state after a pass holds the exclusive lock. -/
def step {W Req : Type} (reili : RateLimiter Req) :
    Event W Req → RateLimiter Req × Option (List (Effect W Req))
  | Event.request now w r =>
    match Limit reili now w r with
    | none => (reili, none)
    | some (reili1, out) => (reili1, some out)
  | Event.cleanup now =>
    match reili.mx.Lock with
    | none => (reili, none)
    | some mx => (cleanupScan { reili with mx := mx } now, some [])

/-- A sequence of events applied one after the other: the final state and,
for each event in order, its effects or `none`. -/
def run {W Req : Type} (reili : RateLimiter Req) :
    List (Event W Req) → RateLimiter Req × List (Option (List (Effect W Req)))
  | [] => (reili, [])
  | ev :: rest =>
    let (reili1, out) := step reili ev
    let (reili2, outs) := run reili1 rest
    (reili2, out :: outs)

/-- One event with the guard granted: the handler past its `RLock`, or the
scan past its `Lock`, with the lock given back afterwards.  This is what an
event does when every lock is released at the end of its critical section. -/
def stepGranted {W Req : Type} (reili : RateLimiter Req) :
    Event W Req → RateLimiter Req × List (Effect W Req)
  | Event.request now w r => LimitGranted reili now w r
  | Event.cleanup now => (cleanupScan reili now, [])

/-- A sequence of events, each with the guard granted. -/
def runGranted {W Req : Type} (reili : RateLimiter Req) :
    List (Event W Req) → RateLimiter Req × List (List (Effect W Req))
  | [] => (reili, [])
  | ev :: rest =>
    let (reili1, out) := stepGranted reili ev
    let (reili2, outs) := runGranted reili1 rest
    (reili2, out :: outs)

/-- The events come at non-decreasing clock readings. -/
def NonDecreasing {W Req : Type} (evs : List (Event W Req)) : Prop :=
  List.Pairwise (fun e1 e2 => e1.time ≤ e2.time) evs

/-- An effect that answers the request: an error response written to `w`, or
the call of the next handler. -/
def Effect.isAnswer {W Req : Type} : Effect W Req → Bool
  | Effect.log _ => false
  | Effect.httpError _ _ _ => true
  | Effect.serveHTTP _ _ => true

/-- The identifier used in the examples: the request is the visitor's name. -/
def identByName : String → String × Option String := fun s => (s, none)

/-- An identifier that fails on the request `"bad"`, returning a name with the error. -/
def identOrFail : String → String × Option String :=
  fun s => if s = "bad" then ("ghost", some "no identity") else (s, none)

/-- The events without the wake-ups of the cleanup goroutine. -/
def requestsOnly {W Req : Type} (evs : List (Event W Req)) : List (Event W Req) :=
  evs.filter (fun e => match e with
    | Event.request _ _ _ => true
    | Event.cleanup _ => false)

/-- What the requests among the events get, in order, when the events are
applied one after the other starting in state `reili`: the effects of the
handler, or `none` for a call that does not return. -/
def answers {W Req : Type} :
    RateLimiter Req → List (Event W Req) → List (Option (List (Effect W Req)))
  | _, [] => []
  | reili, Event.request now w r :: rest =>
    (step reili (Event.request now w r)).2 ::
      answers (step reili (Event.request now w r)).1 rest
  | reili, Event.cleanup now :: rest =>
    answers (step reili (Event.cleanup now : Event W Req)).1 rest

/-- A request that gets `here` with the cleanup passes run is either not
answered, or answered as in the run without the passes (`there`). -/
def noNewAnswer {W Req : Type} (here there : Option (List (Effect W Req))) : Prop :=
  here = none ∨ here = there

/-- The state invariant at clock reading `c`: every stored bucket carries the
configured rate and capacity, a token level within `[0, capacity]`, and was
last updated when its visitor was last seen, not after `c`. -/
def WellFormed {Req : Type} (reili : RateLimiter Req) (c : ℚ) : Prop :=
  ∀ id v, reili.visitors.lookup id = some v →
    v.limiter.limit = reili.requestsPerSecond ∧ v.limiter.burst = reili.burstRequests ∧
    0 ≤ v.limiter.tokens ∧ v.limiter.tokens ≤ (reili.burstRequests : ℚ) ∧
    v.limiter.last = some v.lastSeen ∧ v.lastSeen ≤ c

/-- The latest clock reading among the events, `0` when there is none. -/
def lastTime {W Req : Type} (evs : List (Event W Req)) : ℚ :=
  (evs.map Event.time).foldr max 0

/-- The requests `(w, r)` of a list, all served at the same clock reading `t`. -/
def requestsAt {W Req : Type} (t : ℚ) (reqs : List (W × Req)) : List (Event W Req) :=
  reqs.map (fun p => Event.request t p.1 p.2)

/-- The next handler was called. -/
def served {W Req : Type} (effects : List (Effect W Req)) : Bool :=
  effects.any (fun e => match e with
    | Effect.serveHTTP _ _ => true
    | _ => false)

/-- The handler returned and called the next handler. -/
def allowed {W Req : Type} : Option (RateLimiter Req × List (Effect W Req)) → Bool
  | none => false
  | some (_, effects) => served effects

/-- The event is a request identified as `id`, arriving in the time window
`[a, a + T]`, that the limiter in state `reili` allows: `1` if so, else `0`. -/
def admitted {W Req : Type} (reili : RateLimiter Req) (id : VisitorID) (a T : ℚ) :
    Event W Req → ℕ
  | Event.request now w r =>
    if reili.visitorIdentifier r = (id, none) ∧ a ≤ now ∧ now ≤ a + T ∧
        allowed (Limit reili now w r) = true then 1 else 0
  | Event.cleanup _ => 0

/-- The number of requests of `id` allowed inside the window `[a, a + T]` when
the events are applied one after the other, starting in state `reili`. -/
def allowedInWindow {W Req : Type} (id : VisitorID) (a T : ℚ) :
    RateLimiter Req → List (Event W Req) → ℕ
  | _, [] => 0
  | reili, ev :: rest =>
    admitted reili id a T ev + allowedInWindow id a T (step reili ev).1 rest

/-- The tokens a request of `id` arriving at time `c` finds in its bucket after
refill (the bucket is a new one when `id` has no entry). -/
def level {Req : Type} (reili : RateLimiter Req) (id : VisitorID) (c : ℚ) : ℚ :=
  (getVisitorGranted reili id c).2.limiter.refill c

/-- The entries of `es` that the scan deletes include the one of `id`. -/
def staleIn (now : ℚ) (id : VisitorID) (es : List (Sigma fun _ : VisitorID => visitor)) : Prop :=
  ∃ v, (⟨id, v⟩ : Sigma fun _ : VisitorID => visitor) ∈ es ∧ now - v.lastSeen > 300

/-- The scenario of the examples: rate `1`, capacity `3`; four requests of one
visitor at `0` and a fifth at `1`, and the first wake-up of the cleanup
goroutine at `60`. -/
def exampleScenario : List (Event Unit String) :=
  [Event.request 0 () "a", Event.request 0 () "a", Event.request 0 () "a",
   Event.request 0 () "a", Event.request 1 () "a", Event.cleanup 60]

/-- A limiter (rate `1`, capacity `3`) whose map holds three visitors, last
seen at `0`, `1` and `200`. -/
def threeVisitors : RateLimiter String :=
  { NewRateLimiter 1 3 identByName with
    visitors :=
      ((((∅ : VisitorMap).insert "old"
          { id := "old", limiter := { limit := 1, burst := 3, tokens := 0, last := some 0 },
            lastSeen := 0 }).insert "edge"
          { id := "edge", limiter := { limit := 1, burst := 3, tokens := 2, last := some 1 },
            lastSeen := 1 }).insert "new"
          { id := "new", limiter := { limit := 1, burst := 3, tokens := 1, last := some 200 },
            lastSeen := 200 }) }

/-- The entry of `"a"` at the end of the example scenario. -/
def exampleFinalEntry : visitor :=
  { id := "a", limiter := { limit := 1, burst := 3, tokens := 0, last := some 1 }, lastSeen := 1 }

/-- A limiter (rate `1`, capacity `3`) in which the bucket of `"a"` is empty and
was last updated at `0`. -/
def drained : RateLimiter String :=
  { NewRateLimiter 1 3 identOrFail with
    visitors := (∅ : VisitorMap).insert "a"
      { id := "a", limiter := { limit := 1, burst := 3, tokens := 0, last := some 0 },
        lastSeen := 0 } }

/-- A new limiter (rate `1`, capacity `3`) after the first pass of the cleanup
goroutine, one minute after `NewRateLimiter`. -/
def afterFirstPass : RateLimiter String :=
  (run (W := Unit) (NewRateLimiter 1 3 identByName) [Event.cleanup 60]).1

/-- Four requests of `"a"` at `0`, the first cleanup pass at `60`, and a
request of `"a"` at `61`. -/
def backAfterAMinute : List (Event Unit String) :=
  [Event.request 0 () "a", Event.request 0 () "a", Event.request 0 () "a",
   Event.request 0 () "a", Event.cleanup 60, Event.request 61 () "a"]

/-- The first cleanup pass at `60`, then four requests of the new visitor `"b"`
at `61`. -/
def burstAfterAMinute : List (Event Unit String) :=
  Event.cleanup 60 :: requestsAt 61 [((), "b"), ((), "b"), ((), "b"), ((), "b")]

/-- A request of `"a"` at `0`, the first cleanup pass at `60`, and a request of
`"a"` at `61`. -/
def seenAgainAfterAMinute : List (Event Unit String) :=
  [Event.request 0 () "a", Event.cleanup 60, Event.request 61 () "a"]

/-! ## The goroutines -/

/-- Where the goroutine running `cleanupVisitors` stands in its loop body. -/
inductive CleanupPC where
  | sleep
  | lock
  | scan
  deriving DecidableEq

/-- The goroutine running `cleanupVisitors`, with the limiter (its guard is
`reili.mx`).  `deferred` counts the `defer reili.mx.Unlock()` statements
executed so far: deferred calls run when the function returns, and the loop has
no exit.  `passes` counts the completed scans; `now` is the clock. -/
structure Cleaner (Req : Type) where
  reili : RateLimiter Req
  now : ℚ
  pc : CleanupPC
  deferred : ℕ
  passes : ℕ

/-- The cleanup goroutine as started by `NewRateLimiter` at clock reading `now`. -/
def Cleaner.start {Req : Type} (reili : RateLimiter Req) (now : ℚ) : Cleaner Req :=
  { reili := reili, now := now, pc := CleanupPC.sleep, deferred := 0, passes := 0 }

/-- One statement of the loop body of `cleanupVisitors`; `none` when the
goroutine has to wait.  `time.Sleep(time.Minute)`; then `reili.mx.Lock()`
with `defer reili.mx.Unlock()`; then the scan, after which the loop starts
over.  No statement releases the guard. -/
def cleanupVisitors {Req : Type} (c : Cleaner Req) : Option (Cleaner Req) :=
  match c.pc with
  | CleanupPC.sleep => some { c with now := c.now + 60, pc := CleanupPC.lock }
  | CleanupPC.lock =>
    match c.reili.mx.Lock with
    | none => none
    | some mx =>
      some { c with reili := { c.reili with mx := mx }, deferred := c.deferred + 1,
                    pc := CleanupPC.scan }
  | CleanupPC.scan =>
    some { c with reili := cleanupScan c.reili c.now, passes := c.passes + 1,
                  pc := CleanupPC.sleep }

/-- Who moves next: the cleanup goroutine, a request goroutine entering
`getVisitor` (`RLock`), or a request goroutine leaving it (`RUnlock`). -/
inductive Move where
  | cleaner
  | enterGetVisitor
  | leaveGetVisitor
  deriving DecidableEq

/-- One move of the system; `none` when the move is not possible (the goroutine
has to wait, or no request goroutine is inside `getVisitor`). -/
def Cleaner.move {Req : Type} (c : Cleaner Req) : Move → Option (Cleaner Req)
  | Move.cleaner => cleanupVisitors c
  | Move.enterGetVisitor =>
    match c.reili.mx.RLock with
    | none => none
    | some mx => some { c with reili := { c.reili with mx := mx } }
  | Move.leaveGetVisitor =>
    if 0 < c.reili.mx.readers then
      some { c with reili := { c.reili with mx := c.reili.mx.RUnlock } }
    else none

/-- The moves of a schedule, one after the other; `none` when one of them is
not possible. -/
def Cleaner.moves {Req : Type} (c : Cleaner Req) : List Move → Option (Cleaner Req)
  | [] => some c
  | m :: rest =>
    match c.move m with
    | none => none
    | some c1 => c1.moves rest

/-- Where a goroutine serving a request stands, from the call of `getVisitor`
on.  A `*visitor` is the index of the visitor in `Shared.heap`. -/
inductive RequestPC where
  | rlock
  | lookup
  | addVisitor
  | refresh
  | runlock (reqVisitor : ℕ)
  | allow (reqVisitor : ℕ)
  | done (allowed : Bool)
  deriving DecidableEq

/-- What the request goroutines share: the guard, the visitor objects allocated
so far, and the visitors map, which holds pointers. -/
structure Shared where
  mx : RWMutex
  heap : List visitor
  visitors : AList (fun _ : VisitorID => ℕ)

/-- Request goroutines that serve, at clock reading `now`, requests identified
as `id`, on a limiter with the given configuration. -/
structure Concurrent where
  requestsPerSecond : ℚ
  burstRequests : Int
  id : VisitorID
  now : ℚ
  shared : Shared
  pcs : List RequestPC

/-- The next statement of goroutine `i`; `none` when it has to wait, has
finished, or does not exist.  In order: `reili.mx.RLock()`; the lookup
`_, exists := reili.visitors[identifier]`; then either `addVisitor` (a new
visitor is allocated and stored under the key, and `reili.visitors[identifier]`
is returned) or the refresh of `lastSeen`; the deferred `RUnlock`; and
`reqVisitor.limiter.Allow()` on the visitor that was returned. -/
def Concurrent.stepGoroutine (c : Concurrent) (i : ℕ) : Option Concurrent :=
  match c.pcs[i]? with
  | none => none
  | some RequestPC.rlock =>
    match c.shared.mx.RLock with
    | none => none
    | some mx =>
      some { c with shared := { c.shared with mx := mx }, pcs := c.pcs.set i RequestPC.lookup }
  | some RequestPC.lookup =>
    match c.shared.visitors.lookup c.id with
    | none => some { c with pcs := c.pcs.set i RequestPC.addVisitor }
    | some _ => some { c with pcs := c.pcs.set i RequestPC.refresh }
  | some RequestPC.addVisitor =>
    let limiter := NewLimiter c.requestsPerSecond c.burstRequests
    let p := c.shared.heap.length
    some { c with
      shared := { c.shared with
        heap := c.shared.heap ++ [{ id := c.id, limiter := limiter, lastSeen := c.now }]
        visitors := c.shared.visitors.insert c.id p }
      pcs := c.pcs.set i (RequestPC.runlock p) }
  | some RequestPC.refresh =>
    match c.shared.visitors.lookup c.id with
    | none => none
    | some p =>
      match c.shared.heap[p]? with
      | none => none
      | some v =>
        some { c with
          shared := { c.shared with heap := c.shared.heap.set p { v with lastSeen := c.now } }
          pcs := c.pcs.set i (RequestPC.runlock p) }
  | some (RequestPC.runlock p) =>
    some { c with shared := { c.shared with mx := c.shared.mx.RUnlock },
                  pcs := c.pcs.set i (RequestPC.allow p) }
  | some (RequestPC.allow p) =>
    match c.shared.heap[p]? with
    | none => none
    | some v =>
      some { c with
        shared := { c.shared with
          heap := c.shared.heap.set p { v with limiter := (v.limiter.Allow c.now).1 } }
        pcs := c.pcs.set i (RequestPC.done (v.limiter.Allow c.now).2) }
  | some (RequestPC.done _) => none

/-- The goroutines take turns as the schedule says; `none` when a goroutine is
scheduled that cannot move. -/
def Concurrent.runSchedule (c : Concurrent) : List ℕ → Option Concurrent
  | [] => some c
  | i :: rest =>
    match c.stepGoroutine i with
    | none => none
    | some c1 => c1.runSchedule rest

/-- `n` request goroutines about to call `getVisitor` for `id` at clock reading
`now`, on a new limiter. -/
def Concurrent.start (rps : ℚ) (burst : Int) (id : VisitorID) (now : ℚ) (n : ℕ) : Concurrent :=
  { requestsPerSecond := rps, burstRequests := burst, id := id, now := now,
    shared := { mx := { writer := false, readers := 0 }, heap := [], visitors := ∅ },
    pcs := List.replicate n RequestPC.rlock }

/-- The number of goroutines whose request was allowed. -/
def Concurrent.allowed (c : Concurrent) : ℕ :=
  c.pcs.count (RequestPC.done true)

theorem lookup_singleton_self {β : Type} (a : VisitorID) (b : β) :
    AList.lookup a (AList.singleton a b : AList (fun _ : VisitorID => β)) = some b := by
  rw [← AList.insert_empty, AList.lookup_insert]

section Sequential

variable {W Req : Type}

theorem LimitGranted_error (reili : RateLimiter Req) (now : ℚ) (w : W) (r : Req) (id err : String)
    (h : reili.visitorIdentifier r = (id, some err)) :
    LimitGranted reili now w r =
      (reili, [Effect.log err, Effect.httpError w "Internal Server Error" 500]) := by
  simp only [LimitGranted, h]

theorem LimitGranted_ok (reili : RateLimiter Req) (now : ℚ) (w : W) (r : Req) (id : String)
    (h : reili.visitorIdentifier r = (id, none)) :
    LimitGranted reili now w r =
      ({ (getVisitorGranted reili id now).1 with
          visitors := (getVisitorGranted reili id now).1.visitors.insert id
            { (getVisitorGranted reili id now).2 with
              limiter := ((getVisitorGranted reili id now).2.limiter.Allow now).1 } },
        if ((getVisitorGranted reili id now).2.limiter.Allow now).2 = false then
          [Effect.httpError w "Too Many Requests" 429]
        else [Effect.serveHTTP w r]) := by
  simp only [LimitGranted, h]
  split <;> simp_all

theorem getVisitorGranted_lastSeen (reili : RateLimiter Req) (id : VisitorID) (now : ℚ) :
    (getVisitorGranted reili id now).2.lastSeen = now := by
  unfold getVisitorGranted addVisitor
  split <;> rfl

theorem getVisitorGranted_limiter (reili : RateLimiter Req) (id : VisitorID) (now : ℚ) :
    (getVisitorGranted reili id now).2.limiter =
      match reili.visitors.lookup id with
      | none => NewLimiter reili.requestsPerSecond reili.burstRequests
      | some v => v.limiter := by
  unfold getVisitorGranted addVisitor
  split <;> rfl

theorem getVisitorGranted_id (reili : RateLimiter Req) (id : VisitorID) (now : ℚ) :
    (getVisitorGranted reili id now).2.id =
      match reili.visitors.lookup id with
      | none => id
      | some v => v.id := by
  unfold getVisitorGranted addVisitor
  split <;> rfl

theorem getVisitorGranted_lookup_ne (reili : RateLimiter Req) (id id' : VisitorID) (now : ℚ)
    (h : id' ≠ id) :
    (getVisitorGranted reili id now).1.visitors.lookup id' = reili.visitors.lookup id' := by
  unfold getVisitorGranted addVisitor
  split <;> exact AList.lookup_insert_ne h

theorem getVisitorGranted_config (reili : RateLimiter Req) (id : VisitorID) (now : ℚ) :
    (getVisitorGranted reili id now).1.requestsPerSecond = reili.requestsPerSecond ∧
    (getVisitorGranted reili id now).1.burstRequests = reili.burstRequests ∧
    (getVisitorGranted reili id now).1.visitorIdentifier = reili.visitorIdentifier := by
  unfold getVisitorGranted addVisitor
  split <;> exact ⟨rfl, rfl, rfl⟩

/-- The state after a request whose identification succeeded, at its own key. -/
theorem LimitGranted_lookup_self (reili : RateLimiter Req) (now : ℚ) (w : W) (r : Req) (id : String)
    (h : reili.visitorIdentifier r = (id, none)) :
    (LimitGranted reili now w r).1.visitors.lookup id =
      some { id := (getVisitorGranted reili id now).2.id
             limiter := ((getVisitorGranted reili id now).2.limiter.Allow now).1
             lastSeen := now } := by
  rw [LimitGranted_ok reili now w r id h]
  simp only [AList.lookup_insert, getVisitorGranted_lastSeen]

/-- The state after a request whose identification succeeded, at the other keys. -/
theorem LimitGranted_lookup_ne (reili : RateLimiter Req) (now : ℚ) (w : W) (r : Req) (id id' : String)
    (h : reili.visitorIdentifier r = (id, none)) (hne : id' ≠ id) :
    (LimitGranted reili now w r).1.visitors.lookup id' = reili.visitors.lookup id' := by
  rw [LimitGranted_ok reili now w r id h]
  simp only [AList.lookup_insert_ne hne, getVisitorGranted_lookup_ne reili id id' now hne]

theorem LimitGranted_config (reili : RateLimiter Req) (now : ℚ) (w : W) (r : Req) :
    (LimitGranted reili now w r).1.requestsPerSecond = reili.requestsPerSecond ∧
    (LimitGranted reili now w r).1.burstRequests = reili.burstRequests ∧
    (LimitGranted reili now w r).1.visitorIdentifier = reili.visitorIdentifier := by
  rcases hid : reili.visitorIdentifier r with ⟨id, _ | err⟩
  · rw [LimitGranted_ok reili now w r id hid]
    exact getVisitorGranted_config reili id now
  · rw [LimitGranted_error reili now w r id err hid]
    exact ⟨rfl, rfl, rfl⟩

theorem LimitGranted_effects (reili : RateLimiter Req) (now : ℚ) (w : W) (r : Req) (id : String)
    (h : reili.visitorIdentifier r = (id, none)) :
    (LimitGranted reili now w r).2 =
      if 1 ≤ (getVisitorGranted reili id now).2.limiter.refill now then [Effect.serveHTTP w r]
      else [Effect.httpError w "Too Many Requests" 429] := by
  rw [LimitGranted_ok reili now w r id h]
  simp only [Limiter.Allow]
  split <;> simp

theorem Allow_tokens (lim : Limiter) (now : ℚ) :
    (lim.Allow now).1.tokens = if 1 ≤ lim.refill now then lim.refill now - 1 else lim.refill now := by
  simp only [Limiter.Allow]
  split <;> rfl

theorem Allow_fields (lim : Limiter) (now : ℚ) :
    (lim.Allow now).1.limit = lim.limit ∧ (lim.Allow now).1.burst = lim.burst ∧
    (lim.Allow now).1.last = some now := by
  simp only [Limiter.Allow]
  split <;> exact ⟨rfl, rfl, rfl⟩

/-- With the read lock granted, the handler of `Limit` has exactly one of three
outcomes.  When
`IdentifyVisitor` returns an error it logs it and answers 500 without calling
the next handler; when identification succeeds and the bucket of the visitor
holds less than one token at the call time it answers 429 without calling the
next handler; otherwise it takes exactly one token from that bucket and calls
the next handler once with the same writer and request.  Every call yields
exactly one answer. -/
theorem LimitGranted_three_outcomes (reili : RateLimiter Req) (now : ℚ) (w : W) (r : Req) :
    (∀ id err, reili.visitorIdentifier r = (id, some err) →
      (LimitGranted reili now w r).2 =
        [Effect.log err, Effect.httpError w "Internal Server Error" 500]) ∧
    (∀ id, reili.visitorIdentifier r = (id, none) →
      (getVisitorGranted reili id now).2.limiter.refill now < 1 →
      (LimitGranted reili now w r).2 = [Effect.httpError w "Too Many Requests" 429]) ∧
    (∀ id, reili.visitorIdentifier r = (id, none) →
      1 ≤ (getVisitorGranted reili id now).2.limiter.refill now →
      (LimitGranted reili now w r).2 = [Effect.serveHTTP w r] ∧
      ∃ v, (LimitGranted reili now w r).1.visitors.lookup id = some v ∧
        v.limiter.tokens = (getVisitorGranted reili id now).2.limiter.refill now - 1) ∧
    ((LimitGranted reili now w r).2.filter Effect.isAnswer).length = 1 := by
  refine ⟨?_, ?_, ?_, ?_⟩
  · intro id err h
    rw [LimitGranted_error reili now w r id err h]
  · intro id h hlt
    rw [LimitGranted_effects reili now w r id h, if_neg (not_le.mpr hlt)]
  · intro id h hle
    refine ⟨?_, _, LimitGranted_lookup_self reili now w r id h, ?_⟩
    · rw [LimitGranted_effects reili now w r id h, if_pos hle]
    · simp only [Allow_tokens, if_pos hle]
  · rcases hid : reili.visitorIdentifier r with ⟨id, _ | err⟩
    · rw [LimitGranted_effects reili now w r id hid]
      split <;> rfl
    · rw [LimitGranted_error reili now w r id err hid]
      rfl

/-- With the read lock granted: after a `Limit` call at time `t` identified as
`v`, the entry of `v`
has `lastSeen = t`, whether the request was allowed or rejected, so it does not
decrease when the clock did not go back; the entries of all other identities
are unchanged. -/
theorem LimitGranted_lastSeen_frame (reili : RateLimiter Req) (t : ℚ) (w : W) (r : Req)
    (v : String) (h : reili.visitorIdentifier r = (v, none)) :
    (∃ e, (LimitGranted reili t w r).1.visitors.lookup v = some e ∧ e.lastSeen = t ∧
      ∀ old, reili.visitors.lookup v = some old → old.lastSeen ≤ t →
        old.lastSeen ≤ e.lastSeen) ∧
    ∀ id, id ≠ v → (LimitGranted reili t w r).1.visitors.lookup id = reili.visitors.lookup id := by
  refine ⟨⟨_, LimitGranted_lookup_self reili t w r v h, rfl, fun old _ hle => hle⟩, ?_⟩
  intro id hne
  exact LimitGranted_lookup_ne reili t w r v id h hne

/-- The loop of the scan, seen from one key: the key is gone when one of the
visited entries is the key's and is stale, and is untouched otherwise. -/
theorem scanLoop_lookup (now : ℚ) (id : VisitorID) :
    ∀ (es : List (Sigma fun _ : VisitorID => visitor)) (m : VisitorMap),
      (staleIn now id es → (scanLoop now es m).lookup id = none) ∧
      (¬ staleIn now id es → (scanLoop now es m).lookup id = m.lookup id) := by
  intro es
  induction es with
  | nil =>
    intro m
    refine ⟨?_, fun _ => rfl⟩
    rintro ⟨v, hv, _⟩
    cases hv
  | cons e rest ih =>
    intro m
    obtain ⟨k, v⟩ := e
    rw [scanLoop]
    by_cases hrest : staleIn now id rest
    · have hall : staleIn now id (⟨k, v⟩ :: rest) := by
        obtain ⟨v', hv', hs⟩ := hrest
        exact ⟨v', List.mem_cons_of_mem _ hv', hs⟩
      exact ⟨fun _ => (ih _).1 hrest, fun h => absurd hall h⟩
    · rw [(ih _).2 hrest]
      by_cases hk : id = k
      · subst hk
        by_cases hs : now - v.lastSeen > 300
        · rw [if_pos hs, AList.lookup_erase]
          exact ⟨fun _ => rfl, fun h => absurd ⟨v, List.mem_cons_self _ _, hs⟩ h⟩
        · rw [if_neg hs]
          refine ⟨?_, fun _ => rfl⟩
          rintro ⟨v', hv', hs'⟩
          rcases List.mem_cons.mp hv' with heq | hmem
          · cases heq; exact absurd hs' hs
          · exact absurd ⟨v', hmem, hs'⟩ hrest
      · have hnot : ¬ staleIn now id (⟨k, v⟩ :: rest) := by
          rintro ⟨v', hv', hs'⟩
          rcases List.mem_cons.mp hv' with heq | hmem
          · cases heq; exact hk rfl
          · exact hrest ⟨v', hmem, hs'⟩
        refine ⟨fun h => absurd h hnot, fun _ => ?_⟩
        split
        · exact AList.lookup_erase_ne hk
        · rfl

/-- One pass of the scan, seen from one key. -/
theorem cleanupScan_lookup (reili : RateLimiter Req) (now : ℚ) (id : VisitorID) :
    (cleanupScan reili now).visitors.lookup id =
      match reili.visitors.lookup id with
      | none => none
      | some v => if now - v.lastSeen > 300 then none else some v := by
  simp only [cleanupScan]
  cases hl : reili.visitors.lookup id with
  | none =>
    have : ¬ staleIn now id reili.visitors.entries := by
      rintro ⟨v, hv, _⟩
      have := AList.mem_lookup_iff.mpr hv
      rw [hl] at this
      cases this
    rw [(scanLoop_lookup now id _ _).2 this, hl]
  | some v =>
    by_cases hs : now - v.lastSeen > 300
    · have : staleIn now id reili.visitors.entries :=
        ⟨v, AList.mem_lookup_iff.mp (by rw [hl]; rfl), hs⟩
      simp only [if_pos hs, (scanLoop_lookup now id _ _).1 this]
    · have : ¬ staleIn now id reili.visitors.entries := by
        rintro ⟨v', hv', hs'⟩
        have := AList.mem_lookup_iff.mpr hv'
        rw [hl] at this
        cases this
        exact hs hs'
      simp only [if_neg hs, (scanLoop_lookup now id _ _).2 this, hl]

/-- C4: one pass of the scan of `cleanupVisitors` at time `now` keeps exactly
the entries with `now - lastSeen ≤ 300` seconds, each with the visitor it held
(bucket and `lastSeen` unchanged), and removes the entries with
`now - lastSeen > 300`; an entry idle for exactly 5 minutes survives; the pass
inserts nothing and leaves the configuration alone. -/
theorem cleanupScan_keeps_exactly_fresh (reili : RateLimiter Req) (now : ℚ) :
    (∀ id v, (cleanupScan reili now).visitors.lookup id = some v ↔
      (reili.visitors.lookup id = some v ∧ now - v.lastSeen ≤ 300)) ∧
    (∀ id v, reili.visitors.lookup id = some v → now - v.lastSeen > 300 →
      (cleanupScan reili now).visitors.lookup id = none) ∧
    (∀ id v, reili.visitors.lookup id = some v → now - v.lastSeen = 300 →
      (cleanupScan reili now).visitors.lookup id = some v) ∧
    (∀ id, reili.visitors.lookup id = none →
      (cleanupScan reili now).visitors.lookup id = none) ∧
    (cleanupScan reili now).requestsPerSecond = reili.requestsPerSecond ∧
    (cleanupScan reili now).burstRequests = reili.burstRequests := by
  refine ⟨?_, ?_, ?_, ?_, rfl, rfl⟩
  · intro id v
    rw [cleanupScan_lookup]
    cases hl : reili.visitors.lookup id with
    | none => simp
    | some u =>
      by_cases hs : now - u.lastSeen > 300
      · simp only [if_pos hs]
        constructor
        · intro h; cases h
        · rintro ⟨h, hle⟩
          cases h
          exact absurd hs (not_lt.mpr hle)
      · simp only [if_neg hs]
        constructor
        · intro h
          cases h
          exact ⟨rfl, not_lt.mp hs⟩
        · rintro ⟨h, _⟩
          exact h
  · intro id v hl hs
    rw [cleanupScan_lookup, hl]
    simp only [if_pos hs]
  · intro id v hl hs
    rw [cleanupScan_lookup, hl]
    have : ¬ now - v.lastSeen > 300 := by rw [hs]; exact lt_irrefl _
    simp only [if_neg this]
  · intro id hl
    rw [cleanupScan_lookup, hl]

theorem refill_bounds (lim : Limiter) (now : ℚ) (hr : 0 ≤ lim.limit)
    (hb : 0 ≤ (lim.burst : ℚ)) (ht : 0 ≤ lim.tokens) (hl : ∀ l, lim.last = some l → l ≤ now) :
    0 ≤ lim.refill now ∧ lim.refill now ≤ (lim.burst : ℚ) := by
  unfold Limiter.refill
  refine ⟨le_min hb ?_, min_le_left _ _⟩
  cases hlast : lim.last with
  | none => simpa using ht
  | some l =>
    have : 0 ≤ now - l := sub_nonneg.mpr (hl l hlast)
    have := mul_nonneg this hr
    simp only
    linarith

theorem Allow_tokens_bounds (lim : Limiter) (now : ℚ) (hr : 0 ≤ lim.limit)
    (hb : 0 ≤ (lim.burst : ℚ)) (ht : 0 ≤ lim.tokens) (hl : ∀ l, lim.last = some l → l ≤ now) :
    0 ≤ (lim.Allow now).1.tokens ∧ (lim.Allow now).1.tokens ≤ (lim.burst : ℚ) := by
  obtain ⟨h0, h1⟩ := refill_bounds lim now hr hb ht hl
  rw [Allow_tokens]
  split
  · constructor <;> linarith
  · exact ⟨h0, h1⟩

theorem WellFormed_mono (reili : RateLimiter Req) (c c' : ℚ) (h : WellFormed reili c)
    (hc : c ≤ c') : WellFormed reili c' := by
  intro id v hv
  obtain ⟨h1, h2, h3, h4, h5, h6⟩ := h id v hv
  exact ⟨h1, h2, h3, h4, h5, le_trans h6 hc⟩

theorem WellFormed_new (rps : ℚ) (b : Int) (ident : Req → String × Option String) (c : ℚ) :
    WellFormed (NewRateLimiter rps b ident) c := by
  intro id v hv
  simp [NewRateLimiter] at hv

/-- The bucket a request works on is in order: the stored one, or a new one. -/
theorem getVisitorGranted_limiter_ok (reili : RateLimiter Req) (id : VisitorID) (c now : ℚ)
    (hb : 0 ≤ reili.burstRequests) (h : WellFormed reili c) (hc : c ≤ now) :
    (getVisitorGranted reili id now).2.limiter.limit = reili.requestsPerSecond ∧
    (getVisitorGranted reili id now).2.limiter.burst = reili.burstRequests ∧
    0 ≤ (getVisitorGranted reili id now).2.limiter.tokens ∧
    (getVisitorGranted reili id now).2.limiter.tokens ≤ (reili.burstRequests : ℚ) ∧
    ∀ l, (getVisitorGranted reili id now).2.limiter.last = some l → l ≤ now := by
  rw [getVisitorGranted_limiter]
  cases hl : reili.visitors.lookup id with
  | none =>
    have : (0 : ℚ) ≤ (reili.burstRequests : ℚ) := by exact_mod_cast hb
    refine ⟨rfl, rfl, this, le_refl _, ?_⟩
    intro l hl'
    cases hl'
  | some v =>
    obtain ⟨h1, h2, h3, h4, h5, h6⟩ := h id v hl
    refine ⟨h1, h2, h3, h4, ?_⟩
    intro l hl'
    simp only [h5] at hl'
    cases hl'
    exact le_trans h6 hc

theorem LimitGranted_WellFormed (reili : RateLimiter Req) (c now : ℚ) (w : W) (r : Req)
    (hr : 0 ≤ reili.requestsPerSecond) (hb : 0 ≤ reili.burstRequests)
    (h : WellFormed reili c) (hc : c ≤ now) :
    WellFormed (LimitGranted reili now w r).1 now := by
  rcases hid : reili.visitorIdentifier r with ⟨id, _ | err⟩
  · intro id' v hv
    obtain ⟨c1, c2, _⟩ := LimitGranted_config reili now w r
    rw [c1, c2]
    by_cases hne : id' = id
    · subst hne
      rw [LimitGranted_lookup_self reili now w r id' hid] at hv
      cases hv
      obtain ⟨g1, g2, g3, g4, g5⟩ := getVisitorGranted_limiter_ok reili id' c now hb h hc
      obtain ⟨a1, a2, a3⟩ := Allow_fields (getVisitorGranted reili id' now).2.limiter now
      have hb' : (0 : ℚ) ≤ ((getVisitorGranted reili id' now).2.limiter.burst : ℚ) := by
        rw [g2]; exact_mod_cast hb
      obtain ⟨t0, t1⟩ := Allow_tokens_bounds (getVisitorGranted reili id' now).2.limiter now
        (by rw [g1]; exact hr) hb' g3 g5
      rw [g2] at t1
      exact ⟨a1.trans g1, a2.trans g2, t0, t1, a3, le_refl _⟩
    · rw [LimitGranted_lookup_ne reili now w r id id' hid hne] at hv
      exact WellFormed_mono reili c now h hc id' v hv
  · rw [LimitGranted_error reili now w r id err hid]
    exact WellFormed_mono reili c now h hc

theorem cleanupScan_WellFormed (reili : RateLimiter Req) (c now : ℚ)
    (h : WellFormed reili c) (hc : c ≤ now) : WellFormed (cleanupScan reili now) now := by
  intro id v hv
  rw [cleanupScan_lookup] at hv
  cases hl : reili.visitors.lookup id with
  | none => rw [hl] at hv; cases hv
  | some u =>
    rw [hl] at hv
    simp only at hv
    split at hv
    · cases hv
    · cases hv
      exact WellFormed_mono reili c now h hc id _ hl

theorem stepGranted_config (reili : RateLimiter Req) (ev : Event W Req) :
    (stepGranted reili ev).1.requestsPerSecond = reili.requestsPerSecond ∧
    (stepGranted reili ev).1.burstRequests = reili.burstRequests ∧
    (stepGranted reili ev).1.visitorIdentifier = reili.visitorIdentifier := by
  cases ev with
  | request now w r => exact LimitGranted_config reili now w r
  | cleanup now => exact ⟨rfl, rfl, rfl⟩

theorem stepGranted_WellFormed (reili : RateLimiter Req) (c : ℚ) (ev : Event W Req)
    (hr : 0 ≤ reili.requestsPerSecond) (hb : 0 ≤ reili.burstRequests)
    (h : WellFormed reili c) (hc : c ≤ ev.time) :
    WellFormed (stepGranted reili ev).1 ev.time := by
  cases ev with
  | request now w r => exact LimitGranted_WellFormed reili c now w r hr hb h hc
  | cleanup now => exact cleanupScan_WellFormed reili c now h hc

theorem runGranted_cons (reili : RateLimiter Req) (ev : Event W Req) (rest : List (Event W Req)) :
    runGranted reili (ev :: rest) =
      ((runGranted (stepGranted reili ev).1 rest).1, (stepGranted reili ev).2 :: (runGranted (stepGranted reili ev).1 rest).2) := rfl

theorem runGranted_config (evs : List (Event W Req)) : ∀ (reili : RateLimiter Req),
    (runGranted reili evs).1.requestsPerSecond = reili.requestsPerSecond ∧
    (runGranted reili evs).1.burstRequests = reili.burstRequests ∧
    (runGranted reili evs).1.visitorIdentifier = reili.visitorIdentifier := by
  induction evs with
  | nil => intro reili; exact ⟨rfl, rfl, rfl⟩
  | cons ev rest ih =>
    intro reili
    rw [runGranted_cons]
    obtain ⟨a, b, c⟩ := ih (stepGranted reili ev).1
    obtain ⟨a', b', c'⟩ := stepGranted_config reili ev
    exact ⟨a.trans a', b.trans b', c.trans c'⟩

/-- The clock reading of the last event, `c` when there is none. -/
theorem runGranted_WellFormed (evs : List (Event W Req)) : ∀ (reili : RateLimiter Req) (c : ℚ),
    0 ≤ reili.requestsPerSecond → 0 ≤ reili.burstRequests → WellFormed reili c →
    NonDecreasing evs → (∀ e ∈ evs, c ≤ e.time) →
    ∀ c', (∀ e ∈ evs, e.time ≤ c') → c ≤ c' → WellFormed (runGranted reili evs).1 c' := by
  induction evs with
  | nil =>
    intro reili c _ _ h _ _ c' _ hc
    exact WellFormed_mono reili c c' h hc
  | cons ev rest ih =>
    intro reili c hr hb h hmono hlow c' hup hc
    rw [runGranted_cons]
    obtain ⟨c1, c2, _⟩ := stepGranted_config reili ev
    have hmono' := List.pairwise_cons.mp hmono
    exact ih (stepGranted reili ev).1 ev.time (by rw [c1]; exact hr) (by rw [c2]; exact hb)
      (stepGranted_WellFormed reili c ev hr hb h (hlow ev (List.mem_cons_self _ _)))
      hmono'.2 hmono'.1 c' (fun e he => hup e (List.mem_cons_of_mem _ he))
      (hup ev (List.mem_cons_self _ _))

theorem le_lastTime (evs : List (Event W Req)) : ∀ e ∈ evs, e.time ≤ lastTime evs := by
  induction evs with
  | nil => intro e he; cases he
  | cons ev rest ih =>
    intro e he
    simp only [lastTime, List.map_cons, List.foldr_cons]
    rcases List.mem_cons.mp he with heq | hmem
    · rw [heq]; exact le_max_left _ _
    · exact le_trans (ih e hmem) (le_max_right _ _)

/-- Every state reached from a new limiter by events at non-decreasing clock
readings satisfies the invariant at any reading not before the last event. -/
theorem runGranted_new_WellFormed (rps : ℚ) (b : Int) (ident : Req → String × Option String)
    (hr : 0 ≤ rps) (hb : 0 ≤ b) (evs : List (Event W Req)) (hmono : NonDecreasing evs)
    (c : ℚ) (hc : ∀ e ∈ evs, e.time ≤ c) :
    WellFormed (runGranted (NewRateLimiter rps b ident) evs).1 c := by
  cases evs with
  | nil => exact WellFormed_new rps b ident c
  | cons ev rest =>
    refine runGranted_WellFormed (ev :: rest) (NewRateLimiter rps b ident) ev.time hr hb
      (WellFormed_new rps b ident ev.time) hmono ?_ c hc (hc ev (List.mem_cons_self _ _))
    intro e he
    rcases List.mem_cons.mp he with heq | hmem
    · rw [heq]
    · exact (List.pairwise_cons.mp hmono).1 e hmem

theorem NonDecreasing_take (evs : List (Event W Req)) (k : ℕ) (h : NonDecreasing evs) :
    NonDecreasing (evs.take k) :=
  List.Pairwise.sublist (List.take_sublist k evs) h

/-- With the guard granted to every event: for a limiter with `rps > 0` and
`burst ≥ 1`, after every step of
every sequence of requests and cleanup passes at non-decreasing times, the
token level of every stored bucket lies in `[0, burst]`, and so does the level
that the refill of the next attempt computes at any later time: a rejected
request does not drive the level below zero and refill does not raise it above
the capacity. -/
theorem granted_token_level_bounds (rps : ℚ) (burst : Int) (ident : Req → String × Option String)
    (hr : 0 < rps) (hb : 1 ≤ burst) (evs : List (Event W Req)) (hmono : NonDecreasing evs)
    (k : ℕ) (id : VisitorID) (v : visitor)
    (hv : (runGranted (NewRateLimiter rps burst ident) (evs.take k)).1.visitors.lookup id = some v) :
    (0 ≤ v.limiter.tokens ∧ v.limiter.tokens ≤ (burst : ℚ)) ∧
    ∀ t, (∀ e ∈ evs.take k, e.time ≤ t) →
      0 ≤ v.limiter.refill t ∧ v.limiter.refill t ≤ (burst : ℚ) := by
  have hb0 : (0 : Int) ≤ burst := by omega
  have hcfg := runGranted_config (evs.take k) (NewRateLimiter rps burst ident)
  have hwf : ∀ c, (∀ e ∈ evs.take k, e.time ≤ c) →
      WellFormed (runGranted (NewRateLimiter rps burst ident) (evs.take k)).1 c :=
    fun c hc => runGranted_new_WellFormed rps burst ident (le_of_lt hr) hb0 (evs.take k)
      (NonDecreasing_take evs k hmono) c hc
  constructor
  · obtain ⟨_, _, h3, h4, _, _⟩ := hwf (lastTime (evs.take k)) (le_lastTime _) id v hv
    rw [hcfg.2.1] at h4
    exact ⟨h3, h4⟩
  · intro t ht
    obtain ⟨h1, h2, h3, _, h5, h6⟩ := hwf t ht id v hv
    rw [hcfg.1] at h1
    rw [hcfg.2.1] at h2
    have hq : (0 : ℚ) ≤ (burst : ℚ) := by exact_mod_cast hb0
    have := refill_bounds v.limiter t (by rw [h1]; exact le_of_lt hr) (by rw [h2]; exact hq) h3
      (by intro l hl; rw [h5] at hl; cases hl; exact h6)
    rw [h2] at this
    exact this

theorem runGranted_append (evs1 evs2 : List (Event W Req)) : ∀ (reili : RateLimiter Req),
    (runGranted reili (evs1 ++ evs2)).1 = (runGranted (runGranted reili evs1).1 evs2).1 := by
  induction evs1 with
  | nil => intro reili; rfl
  | cons ev rest ih =>
    intro reili
    rw [List.cons_append, runGranted_cons, runGranted_cons]
    exact ih _

/-- A step that is not an identified request of `id` leaves the entry of `id`
as it is, or (a cleanup pass) removes it. -/
theorem stepGranted_other_lookup (reili : RateLimiter Req) (ev : Event W Req) (id : VisitorID)
    (hev : ∀ t w r, ev = Event.request t w r → reili.visitorIdentifier r ≠ (id, none)) :
    (stepGranted reili ev).1.visitors.lookup id = none ∨
    (stepGranted reili ev).1.visitors.lookup id = reili.visitors.lookup id := by
  cases ev with
  | request now w r =>
    right
    rcases hid : reili.visitorIdentifier r with ⟨id', _ | err⟩
    · have hne : id ≠ id' := by
        intro h
        exact hev now w r rfl (by rw [hid, h])
      exact LimitGranted_lookup_ne reili now w r id' id hid hne
    · simp only [stepGranted]
      rw [LimitGranted_error reili now w r id' err hid]
  | cleanup now =>
    simp only [stepGranted]
    rw [cleanupScan_lookup]
    cases reili.visitors.lookup id with
    | none => left; rfl
    | some v =>
      simp only
      split
      · left; rfl
      · right; rfl

theorem runGranted_other_lookup (evs : List (Event W Req)) (id : VisitorID) :
    ∀ (reili : RateLimiter Req),
    (∀ e ∈ evs, ∀ t w r, e = Event.request t w r → reili.visitorIdentifier r ≠ (id, none)) →
    (runGranted reili evs).1.visitors.lookup id = none ∨
    (runGranted reili evs).1.visitors.lookup id = reili.visitors.lookup id := by
  induction evs with
  | nil => intro reili _; right; rfl
  | cons ev rest ih =>
    intro reili hevs
    rw [runGranted_cons]
    have hcfg := (stepGranted_config reili ev).2.2
    rcases ih (stepGranted reili ev).1 (by
      intro e he t w r heq
      rw [hcfg]
      exact hevs e (List.mem_cons_of_mem _ he) t w r heq) with h | h
    · left; exact h
    · rcases stepGranted_other_lookup reili ev id
        (fun t w r heq => hevs ev (List.mem_cons_self _ _) t w r heq) with h' | h'
      · left; rw [h, h']
      · right; rw [h, h']

/-- With the guard granted to every event: with `rps > 0` and `burst ≥ 1`, in
every run at non-decreasing times,
a request of a visitor that arrives at least `1/rps` seconds after the previous
request of that visitor (allowed or rejected) is allowed, whatever requests of
other visitors and cleanup passes happened in between; so a visitor sending
one request every `1/rps` seconds is allowed every time. -/
theorem granted_allowed_after_refill_interval (rps : ℚ) (burst : Int)
    (ident : Req → String × Option String) (hr : 0 < rps) (hb : 1 ≤ burst)
    (pre mid : List (Event W Req)) (t0 t : ℚ) (w0 w : W) (r0 r : Req) (id : VisitorID)
    (hmono : NonDecreasing (pre ++ Event.request t0 w0 r0 :: (mid ++ [Event.request t w r])))
    (h0 : ident r0 = (id, none)) (h1 : ident r = (id, none))
    (hmid : ∀ e ∈ mid, ∀ t' w' r', e = Event.request t' w' r' → ident r' ≠ (id, none))
    (hgap : t0 + 1 / rps ≤ t) :
    (LimitGranted (runGranted (NewRateLimiter rps burst ident) (pre ++ Event.request t0 w0 r0 :: mid)).1
      t w r).2 = [Effect.serveHTTP w r] := by
  have hb0 : (0 : Int) ≤ burst := by omega
  have hbq : (1 : ℚ) ≤ (burst : ℚ) := by exact_mod_cast hb
  -- the state after the previous request of the visitor
  have hsplit : pre ++ Event.request t0 w0 r0 :: mid = (pre ++ [Event.request t0 w0 r0]) ++ mid := by
    simp
  rw [hsplit, runGranted_append]
  set s1 := (runGranted (NewRateLimiter rps burst ident) (pre ++ [Event.request t0 w0 r0])).1 with hs1
  have hcfg1 := runGranted_config (pre ++ [Event.request t0 w0 r0]) (NewRateLimiter rps burst ident)
  have hmono1 : NonDecreasing (pre ++ [Event.request t0 w0 r0]) := by
    have : (pre ++ [Event.request t0 w0 r0]) <+: (pre ++ Event.request t0 w0 r0 ::
        (mid ++ [Event.request t w r])) := by
      refine ⟨mid ++ [Event.request t w r], ?_⟩
      simp
    exact List.Pairwise.sublist this.sublist hmono
  have hup : ∀ e ∈ pre ++ [Event.request t0 w0 r0], e.time ≤ t0 := by
    intro e he
    rcases List.mem_append.mp he with hp | hl
    · have := (List.pairwise_append.mp hmono1).2.2 e hp (Event.request t0 w0 r0)
        (List.mem_singleton.mpr rfl)
      exact this
    · rw [List.mem_singleton.mp hl]
      exact le_refl _
  have hwf1 : WellFormed s1 t0 :=
    runGranted_new_WellFormed rps burst ident (le_of_lt hr) hb0 _ hmono1 t0 hup
  -- its entry was last seen at `t0`
  have hentry : ∃ v, s1.visitors.lookup id = some v ∧ v.lastSeen = t0 := by
    rw [hs1, runGranted_append]
    have hc := runGranted_config pre (NewRateLimiter rps burst ident)
    exact ⟨_, LimitGranted_lookup_self (runGranted (NewRateLimiter rps burst ident) pre).1 t0 w0 r0 id
      (by rw [hc.2.2]; exact h0), rfl⟩
  obtain ⟨v, hv, hseen⟩ := hentry
  obtain ⟨w1, w2, w3, _, w5, _⟩ := hwf1 id v hv
  -- the state just before the request at `t`
  set s2 := (runGranted s1 mid).1 with hs2
  have hcfg2 := runGranted_config mid s1
  have hid2 : s2.visitorIdentifier r = (id, none) := by
    rw [hcfg2.2.2, hcfg1.2.2]; exact h1
  rw [LimitGranted_effects s2 t w r id hid2, getVisitorGranted_limiter]
  have hlook := runGranted_other_lookup mid id s1 (by
    intro e he t' w' r' heq
    rw [hcfg1.2.2]
    exact hmid e he t' w' r' heq)
  have hgoal : ∀ lim : Limiter, lim = (match s2.visitors.lookup id with
      | none => NewLimiter s2.requestsPerSecond s2.burstRequests
      | some v => v.limiter) → 1 ≤ lim.refill t := by
    intro lim hlim
    rcases hlook with hnone | hsame
    · rw [hnone] at hlim
      rw [hlim, hcfg2.1, hcfg2.2.1, hcfg1.1, hcfg1.2.1]
      simp only [Limiter.refill, NewLimiter]
      change (1 : ℚ) ≤ min (burst : ℚ) ((burst : ℚ) + 0 * rps)
      rw [zero_mul, add_zero, min_self]
      exact hbq
    · rw [hsame, hv] at hlim
      rw [hlim]
      simp only [Limiter.refill, w5, w1, w2, hseen]
      rw [hcfg1.1, hcfg1.2.1]
      change (1 : ℚ) ≤ min (burst : ℚ) (v.limiter.tokens + (t - t0) * rps)
      have hge : 1 ≤ (t - t0) * rps := by
        have h1r : 1 / rps ≤ t - t0 := by linarith
        have := mul_le_mul_of_nonneg_right h1r (le_of_lt hr)
        rwa [one_div, inv_mul_cancel₀ (ne_of_gt hr)] at this
      exact le_min hbq (by linarith)
  rw [if_pos (hgoal _ rfl)]

/-- A request at time `t` on a bucket that was last updated at `t` (or is new)
and holds `c` tokens: it is served when `1 ≤ c`, and the bucket then holds
`c - 1` tokens, still last updated at `t`. -/
theorem LimitGranted_same_instant (reili : RateLimiter Req) (t : ℚ) (w : W) (r : Req) (id : VisitorID)
    (c : ℚ) (hid : reili.visitorIdentifier r = (id, none))
    (hlast : ∀ l, (getVisitorGranted reili id t).2.limiter.last = some l → l = t)
    (htok : (getVisitorGranted reili id t).2.limiter.tokens = c)
    (hcap : c ≤ ((getVisitorGranted reili id t).2.limiter.burst : ℚ)) :
    (LimitGranted reili t w r).2 =
      (if 1 ≤ c then [Effect.serveHTTP w r]
       else [Effect.httpError w "Too Many Requests" 429]) ∧
    (LimitGranted reili t w r).1.visitors.lookup id =
      some { id := (getVisitorGranted reili id t).2.id
             limiter := { limit := (getVisitorGranted reili id t).2.limiter.limit
                          burst := (getVisitorGranted reili id t).2.limiter.burst
                          tokens := if 1 ≤ c then c - 1 else c
                          last := some t }
             lastSeen := t } := by
  have hrefill : (getVisitorGranted reili id t).2.limiter.refill t = c := by
    unfold Limiter.refill
    cases hl : (getVisitorGranted reili id t).2.limiter.last with
    | none => simp only [zero_mul, add_zero, htok]; exact min_eq_right hcap
    | some l =>
      rw [hlast l hl]
      simp only [sub_self, zero_mul, add_zero, htok]
      exact min_eq_right hcap
  refine ⟨by rw [LimitGranted_effects reili t w r id hid, hrefill], ?_⟩
  rw [LimitGranted_lookup_self reili t w r id hid]
  simp only [Limiter.Allow, hrefill]
  split <;> rfl

/-- Requests of one visitor served at one instant, starting from a bucket with
`n + m` tokens (`n` of them are served here). -/
theorem granted_burst_run (rps : ℚ) (b : Int) (t : ℚ) (id : VisitorID) (reqs : List (W × Req)) :
    ∀ (reili : RateLimiter Req) (m : ℕ),
    reili.requestsPerSecond = rps → reili.burstRequests = b →
    (∀ p ∈ reqs, reili.visitorIdentifier p.2 = (id, none)) →
    (∀ l, (getVisitorGranted reili id t).2.limiter.last = some l → l = t) →
    (getVisitorGranted reili id t).2.limiter.tokens = ((reqs.length + m : ℕ) : ℚ) →
    (getVisitorGranted reili id t).2.limiter.limit = rps →
    (getVisitorGranted reili id t).2.limiter.burst = b →
    (getVisitorGranted reili id t).2.id = id →
    ((reqs.length + m : ℕ) : ℚ) ≤ (b : ℚ) →
    (runGranted reili (requestsAt t reqs)).2 = reqs.map (fun p => [Effect.serveHTTP p.1 p.2]) ∧
    (∀ l, (getVisitorGranted (runGranted reili (requestsAt t reqs)).1 id t).2.limiter.last = some l → l = t) ∧
    (getVisitorGranted (runGranted reili (requestsAt t reqs)).1 id t).2.limiter.tokens = (m : ℚ) ∧
    (getVisitorGranted (runGranted reili (requestsAt t reqs)).1 id t).2.limiter.limit = rps ∧
    (getVisitorGranted (runGranted reili (requestsAt t reqs)).1 id t).2.limiter.burst = b ∧
    (getVisitorGranted (runGranted reili (requestsAt t reqs)).1 id t).2.id = id ∧
    (reqs ≠ [] → (runGranted reili (requestsAt t reqs)).1.visitors.lookup id =
      some { id := id
             limiter := { limit := rps, burst := b, tokens := (m : ℚ), last := some t }
             lastSeen := t }) := by
  induction reqs with
  | nil =>
    intro reili m _ _ _ hlast htok hlim hbur hidv _
    refine ⟨rfl, hlast, ?_, hlim, hbur, hidv, fun h => absurd rfl h⟩
    simpa using htok
  | cons p rest ih =>
    intro reili m hrps hbr hid hlast htok hlim hbur hidv hcap
    have hidp := hid p (List.mem_cons_self _ _)
    have hone : (1 : ℚ) ≤ (((p :: rest).length + m : ℕ) : ℚ) := by
      have : 1 ≤ (p :: rest).length + m := by simp only [List.length_cons]; omega
      exact_mod_cast this
    obtain ⟨heff, hlook⟩ := LimitGranted_same_instant reili t p.1 p.2 id _ hidp hlast htok
      (by rw [hbur]; exact hcap)
    rw [if_pos hone] at heff hlook
    rw [hlim, hbur, hidv] at hlook
    have htok' : ((((p :: rest).length + m : ℕ) : ℚ) - 1) = ((rest.length + m : ℕ) : ℚ) := by
      simp only [List.length_cons]
      push_cast
      ring
    rw [htok'] at hlook
    have hcfg := LimitGranted_config reili t p.1 p.2
    have hget : (getVisitorGranted (LimitGranted reili t p.1 p.2).1 id t).2 =
        { id := id
          limiter := { limit := rps, burst := b, tokens := ((rest.length + m : ℕ) : ℚ),
                       last := some t }
          lastSeen := t } := by
      simp only [getVisitorGranted, hlook]
    have hcap' : ((rest.length + m : ℕ) : ℚ) ≤ (b : ℚ) := by
      refine le_trans ?_ hcap
      have : rest.length + m ≤ (p :: rest).length + m := by simp only [List.length_cons]; omega
      exact_mod_cast this
    obtain ⟨i1, i2, i3, i4, i5, i6, i7⟩ := ih (LimitGranted reili t p.1 p.2).1 m (hcfg.1.trans hrps)
      (hcfg.2.1.trans hbr)
      (fun q hq => by rw [hcfg.2.2]; exact hid q (List.mem_cons_of_mem _ hq))
      (by rw [hget]; intro l hl; cases hl; rfl) (by rw [hget]) (by rw [hget]) (by rw [hget])
      (by rw [hget]) hcap'
    have hrun : runGranted reili (requestsAt t (p :: rest)) =
        ((runGranted (LimitGranted reili t p.1 p.2).1 (requestsAt t rest)).1,
          (LimitGranted reili t p.1 p.2).2 :: (runGranted (LimitGranted reili t p.1 p.2).1 (requestsAt t rest)).2) :=
      rfl
    rw [hrun]
    refine ⟨?_, i2, i3, i4, i5, i6, fun _ => ?_⟩
    · simp only [List.map_cons, heff, i1]
    · cases rest with
      | nil =>
        simp only [requestsAt, List.map_nil, runGranted]
        simpa using hlook
      | cons q rest' => exact i7 (List.cons_ne_nil _ _)

theorem runGranted_append_snd (evs1 evs2 : List (Event W Req)) : ∀ (reili : RateLimiter Req),
    (runGranted reili (evs1 ++ evs2)).2 = (runGranted reili evs1).2 ++ (runGranted (runGranted reili evs1).1 evs2).2 := by
  induction evs1 with
  | nil => intro reili; rfl
  | cons ev rest ih =>
    intro reili
    rw [List.cons_append, runGranted_cons, runGranted_cons]
    simp only [List.cons_append, ih]

/-- With the guard granted to every event: for a limiter with `rps > 0` and
`burst ≥ 1` (any visitors map) and an
identity not in the map, `burst` requests of that identity at one instant are
all served and the next one at that instant is answered 429.  The bucket the
first request finds is new, with the configured rate and capacity, and full;
after `j` of the requests the map holds for the identity that one bucket with
`burst - j` tokens, and it is the bucket the next request works on. -/
theorem granted_burst_allowance (rps : ℚ) (burst : Int) (ident : Req → String × Option String)
    (tbl : VisitorMap) (id : VisitorID) (t : ℚ) (reqs : List (W × Req)) (extra : W × Req)
    (_hr : 0 < rps) (hb : 1 ≤ burst) (habs : tbl.lookup id = none)
    (hid : ∀ p ∈ reqs ++ [extra], ident p.2 = (id, none))
    (hlen : (reqs.length : Int) = burst) :
    (runGranted { NewRateLimiter rps burst ident with visitors := tbl }
        (requestsAt t (reqs ++ [extra]))).2 =
      reqs.map (fun p => [Effect.serveHTTP p.1 p.2]) ++
        [[Effect.httpError extra.1 "Too Many Requests" 429]] ∧
    ((getVisitorGranted { NewRateLimiter rps burst ident with visitors := tbl } id t).2.limiter =
        NewLimiter rps burst ∧
      (NewLimiter rps burst).limit = rps ∧ (NewLimiter rps burst).burst = burst ∧
      (NewLimiter rps burst).tokens = (burst : ℚ)) ∧
    ∀ j, 1 ≤ j → j ≤ reqs.length →
      (runGranted { NewRateLimiter rps burst ident with visitors := tbl }
          (requestsAt t (reqs.take j))).1.visitors.lookup id =
        some { id := id
               limiter := { limit := rps, burst := burst, tokens := (burst : ℚ) - (j : ℚ),
                            last := some t }
               lastSeen := t } ∧
      (getVisitorGranted (runGranted { NewRateLimiter rps burst ident with visitors := tbl }
          (requestsAt t (reqs.take j))).1 id t).2.limiter =
        { limit := rps, burst := burst, tokens := (burst : ℚ) - (j : ℚ), last := some t } := by
  have hbq : ((reqs.length : ℕ) : ℚ) = (burst : ℚ) := by exact_mod_cast hlen
  have hget0 : (getVisitorGranted { NewRateLimiter rps burst ident with visitors := tbl } id t).2 =
      { id := id, limiter := NewLimiter rps burst, lastSeen := t } := by
    simp only [getVisitorGranted, habs, addVisitor, NewRateLimiter]
  have hidr : ∀ p ∈ reqs, ident p.2 = (id, none) :=
    fun p hp => hid p (List.mem_append_left _ hp)
  refine ⟨?_, ⟨by rw [hget0], rfl, rfl, rfl⟩, ?_⟩
  · obtain ⟨i1, i2, i3, i4, i5, i6, _⟩ := granted_burst_run rps burst t id reqs
      { NewRateLimiter rps burst ident with visitors := tbl } 0 rfl rfl hidr
      (by rw [hget0]; intro l hl; cases hl)
      (by rw [hget0]; simp only [NewLimiter, add_zero]; exact hbq.symm)
      (by rw [hget0]; rfl) (by rw [hget0]; rfl) (by rw [hget0])
      (by rw [add_zero]; exact le_of_eq hbq)
    have hsplit : requestsAt t (reqs ++ [extra]) =
        requestsAt (W := W) t reqs ++ [Event.request t extra.1 extra.2] := by
      simp [requestsAt]
    rw [hsplit, runGranted_append_snd, i1]
    congr 1
    have hcfg := runGranted_config (requestsAt t reqs)
      ({ NewRateLimiter rps burst ident with visitors := tbl } : RateLimiter Req)
    obtain ⟨heff, _⟩ := LimitGranted_same_instant
      (runGranted { NewRateLimiter rps burst ident with visitors := tbl } (requestsAt t reqs)).1
      t extra.1 extra.2 id 0
      (by rw [hcfg.2.2]; exact hid extra (List.mem_append_right _ (List.mem_singleton.mpr rfl)))
      i2 (by simpa using i3) (by rw [i5]; exact_mod_cast (by omega : (0 : Int) ≤ burst))
    rw [if_neg (by norm_num)] at heff
    simp only [runGranted, stepGranted, heff]
  · intro j hj1 hjn
    have hlenj : (reqs.take j).length = j := List.length_take_of_le hjn
    have hsum : (reqs.take j).length + (reqs.length - j) = reqs.length := by omega
    have htokj : (((reqs.length - j : ℕ)) : ℚ) = (burst : ℚ) - (j : ℚ) := by
      rw [← hbq, Nat.cast_sub hjn]
    obtain ⟨_, i2, i3, i4, i5, i6, i7⟩ := granted_burst_run rps burst t id (reqs.take j)
      { NewRateLimiter rps burst ident with visitors := tbl } (reqs.length - j) rfl rfl
      (fun p hp => hidr p (List.mem_of_mem_take hp))
      (by rw [hget0]; intro l hl; cases hl)
      (by rw [hget0, hsum]; simp only [NewLimiter]; exact hbq.symm)
      (by rw [hget0]; rfl) (by rw [hget0]; rfl) (by rw [hget0])
      (by rw [hsum]; exact le_of_eq hbq)
    have hne : reqs.take j ≠ [] := by
      intro h
      rw [h] at hlenj
      simp at hlenj
      omega
    have hlook := i7 hne
    rw [htokj] at hlook
    refine ⟨hlook, ?_⟩
    simp only [getVisitorGranted, hlook]

theorem level_bounds (reili : RateLimiter Req) (id : VisitorID) (c0 c : ℚ)
    (hr : 0 ≤ reili.requestsPerSecond) (hb : 0 ≤ reili.burstRequests)
    (h : WellFormed reili c0) (hc : c0 ≤ c) :
    0 ≤ level reili id c ∧ level reili id c ≤ (reili.burstRequests : ℚ) := by
  obtain ⟨g1, g2, g3, _, g5⟩ := getVisitorGranted_limiter_ok reili id c0 c hb h hc
  have hbq : (0 : ℚ) ≤ (reili.burstRequests : ℚ) := by exact_mod_cast hb
  have := refill_bounds (getVisitorGranted reili id c).2.limiter c (by rw [g1]; exact hr)
    (by rw [g2]; exact hbq) g3 g5
  rw [g2] at this
  exact this

theorem level_eq_of_lookup (s s' : RateLimiter Req) (id : VisitorID) (c : ℚ)
    (h1 : s'.requestsPerSecond = s.requestsPerSecond) (h2 : s'.burstRequests = s.burstRequests)
    (h3 : s'.visitors.lookup id = s.visitors.lookup id) : level s' id c = level s id c := by
  simp only [level, getVisitorGranted_limiter, h1, h2, h3]

/-- Between two clock readings the level grows by at most `rps` per second. -/
theorem level_growth (reili : RateLimiter Req) (id : VisitorID) (c0 c c' : ℚ)
    (hr : 0 ≤ reili.requestsPerSecond) (h : WellFormed reili c0) (hc : c ≤ c') :
    level reili id c' ≤ level reili id c + reili.requestsPerSecond * (c' - c) := by
  have hgrow : 0 ≤ reili.requestsPerSecond * (c' - c) := mul_nonneg hr (sub_nonneg.mpr hc)
  simp only [level, getVisitorGranted_limiter]
  cases hl : reili.visitors.lookup id with
  | none =>
    simp only [Limiter.refill, NewLimiter, zero_mul, add_zero, min_self]
    linarith
  | some v =>
    obtain ⟨h1, _, _, _, h5, _⟩ := h id v hl
    simp only [Limiter.refill, h5, h1]
    rcases le_total (v.limiter.burst : ℚ)
      (v.limiter.tokens + (c - v.lastSeen) * reili.requestsPerSecond) with hle | hle
    · rw [min_eq_left hle]
      exact le_trans (min_le_left _ _) (by linarith)
    · rw [min_eq_right hle]
      refine le_trans (min_le_right _ _) (le_of_eq ?_)
      ring

theorem served_iff (reili : RateLimiter Req) (now : ℚ) (w : W) (r : Req) (id : VisitorID)
    (hid : reili.visitorIdentifier r = (id, none)) :
    served (LimitGranted reili now w r).2 = true ↔ 1 ≤ level reili id now := by
  rw [LimitGranted_effects reili now w r id hid]
  unfold level
  split
  · simp [served, *]
  · simp [served, *]

/-- A request of `id` at time `t` lowers the level of `id` at `t` by one when it
is served and leaves it when it is rejected. -/
theorem LimitGranted_level (reili : RateLimiter Req) (c t : ℚ) (w : W) (r : Req) (id : VisitorID)
    (hr : 0 ≤ reili.requestsPerSecond) (hb : 0 ≤ reili.burstRequests)
    (h : WellFormed reili c) (hc : c ≤ t) (hid : reili.visitorIdentifier r = (id, none)) :
    level (LimitGranted reili t w r).1 id t =
      if 1 ≤ level reili id t then level reili id t - 1 else level reili id t := by
  obtain ⟨l0, l1⟩ := level_bounds reili id c t hr hb h hc
  obtain ⟨_, g2, _⟩ := getVisitorGranted_limiter_ok reili id c t hb h hc
  obtain ⟨_, a2, a3⟩ := Allow_fields (getVisitorGranted reili id t).2.limiter t
  have htok := Allow_tokens (getVisitorGranted reili id t).2.limiter t
  have hlev : level (LimitGranted reili t w r).1 id t =
      ((getVisitorGranted reili id t).2.limiter.Allow t).1.tokens := by
    unfold level
    rw [getVisitorGranted_limiter (LimitGranted reili t w r).1 id t, LimitGranted_lookup_self reili t w r id hid]
    simp only [Limiter.refill, a3, sub_self, zero_mul, add_zero, a2, g2]
    refine min_eq_right ?_
    rw [htok]
    unfold level at l0 l1
    split <;> linarith
  rw [hlev, htok]
  rfl


/-! ## The guard on the request path -/

theorem RLock_RUnlock (mx mx1 : RWMutex) (h : mx.RLock = some mx1) : mx1.RUnlock = mx := by
  obtain ⟨wr, rd⟩ := mx
  unfold RWMutex.RLock at h
  split at h
  · cases h
  · cases h
    simp [RWMutex.RUnlock]

theorem Lock_writer (mx mx1 : RWMutex) (h : mx.Lock = some mx1) : mx1.writer = true := by
  unfold RWMutex.Lock at h
  split at h
  · cases h
  · cases h
    rfl

theorem Lock_held (mx : RWMutex) (h : mx.writer = true) : mx.Lock = none := by
  simp [RWMutex.Lock, h]

theorem getVisitorGranted_mx (reili : RateLimiter Req) (id : VisitorID) (now : ℚ) :
    (getVisitorGranted reili id now).1.mx = reili.mx := by
  unfold getVisitorGranted addVisitor
  split <;> rfl

theorem LimitGranted_mx (reili : RateLimiter Req) (now : ℚ) (w : W) (r : Req) :
    (LimitGranted reili now w r).1.mx = reili.mx := by
  rcases hid : reili.visitorIdentifier r with ⟨id, _ | err⟩
  · rw [LimitGranted_ok reili now w r id hid]
    exact getVisitorGranted_mx reili id now
  · rw [LimitGranted_error reili now w r id err hid]

/-- With the exclusive lock not held, `getVisitor` takes its read lock, runs
its statements and gives the read lock back. -/
theorem getVisitor_free (reili : RateLimiter Req) (id : VisitorID) (now : ℚ)
    (h : reili.mx.writer = false) :
    getVisitor reili id now = some (getVisitorGranted reili id now) := by
  obtain ⟨rps, b, vis, ⟨wr, rd⟩, ident⟩ := reili
  simp only at h
  subst h
  simp only [getVisitor, RWMutex.RLock, RWMutex.RUnlock, getVisitorGranted, addVisitor]
  cases vis.lookup id <;> simp

/-- With the exclusive lock held, `getVisitor` waits. -/
theorem getVisitor_held (reili : RateLimiter Req) (id : VisitorID) (now : ℚ)
    (h : reili.mx.writer = true) : getVisitor reili id now = none := by
  simp [getVisitor, RWMutex.RLock, h]

theorem Limit_free (reili : RateLimiter Req) (now : ℚ) (w : W) (r : Req)
    (h : reili.mx.writer = false) :
    Limit reili now w r = some (LimitGranted reili now w r) := by
  rcases hid : reili.visitorIdentifier r with ⟨id, _ | err⟩
  · simp only [Limit, LimitGranted, hid, getVisitor_free reili id now h]
    split <;> rfl
  · simp only [Limit, LimitGranted, hid]

/-- With the exclusive lock held, the handler does not return for a request
whose identification succeeds. -/
theorem Limit_held (reili : RateLimiter Req) (now : ℚ) (w : W) (r : Req) (id : String)
    (h : reili.mx.writer = true) (hid : reili.visitorIdentifier r = (id, none)) :
    Limit reili now w r = none := by
  simp only [Limit, hid, getVisitor_held reili id now h]

theorem Limit_error (reili : RateLimiter Req) (now : ℚ) (w : W) (r : Req) (id err : String)
    (h : reili.visitorIdentifier r = (id, some err)) :
    Limit reili now w r =
      some (reili, [Effect.log err, Effect.httpError w "Internal Server Error" 500]) := by
  simp only [Limit, h]

theorem Limit_cases (reili : RateLimiter Req) (now : ℚ) (w : W) (r : Req) :
    Limit reili now w r = none ∨ Limit reili now w r = some (LimitGranted reili now w r) := by
  cases hw : reili.mx.writer with
  | false => right; exact Limit_free reili now w r hw
  | true =>
    rcases hid : reili.visitorIdentifier r with ⟨id, _ | err⟩
    · left; exact Limit_held reili now w r id hw hid
    · right
      rw [Limit_error reili now w r id err hid, LimitGranted_error reili now w r id err hid]

theorem step_request_free (reili : RateLimiter Req) (now : ℚ) (w : W) (r : Req)
    (h : reili.mx.writer = false) :
    step reili (Event.request now w r) =
      ((LimitGranted reili now w r).1, some (LimitGranted reili now w r).2) := by
  simp only [step, Limit_free reili now w r h]

/-- Once the exclusive lock is held, no event changes the limiter: the lock
stays held, the map stays as it is. -/
theorem step_held (reili : RateLimiter Req) (ev : Event W Req) (h : reili.mx.writer = true) :
    (step reili ev).1 = reili := by
  cases ev with
  | request now w r =>
    rcases hid : reili.visitorIdentifier r with ⟨id, _ | err⟩
    · simp only [step, Limit_held reili now w r id h hid]
    · simp only [step, Limit_error reili now w r id err hid]
  | cleanup now =>
    simp only [step, Lock_held reili.mx h]

theorem step_config (reili : RateLimiter Req) (ev : Event W Req) :
    (step reili ev).1.requestsPerSecond = reili.requestsPerSecond ∧
    (step reili ev).1.burstRequests = reili.burstRequests ∧
    (step reili ev).1.visitorIdentifier = reili.visitorIdentifier := by
  cases ev with
  | request now w r =>
    rcases Limit_cases reili now w r with h | h
    · simp [step, h]
    · simp only [step, h]
      exact LimitGranted_config reili now w r
  | cleanup now =>
    simp only [step]
    cases reili.mx.Lock <;> exact ⟨rfl, rfl, rfl⟩

theorem step_WellFormed (reili : RateLimiter Req) (c : ℚ) (ev : Event W Req)
    (hr : 0 ≤ reili.requestsPerSecond) (hb : 0 ≤ reili.burstRequests)
    (h : WellFormed reili c) (hc : c ≤ ev.time) :
    WellFormed (step reili ev).1 ev.time := by
  cases ev with
  | request now w r =>
    rcases Limit_cases reili now w r with hl | hl
    · simp only [step, hl]
      exact WellFormed_mono reili c now h hc
    · simp only [step, hl]
      exact LimitGranted_WellFormed reili c now w r hr hb h hc
  | cleanup now =>
    simp only [step]
    cases hL : reili.mx.Lock with
    | none => exact WellFormed_mono reili c now h hc
    | some mx => exact cleanupScan_WellFormed { reili with mx := mx } c now h hc

theorem run_cons (reili : RateLimiter Req) (ev : Event W Req) (rest : List (Event W Req)) :
    run reili (ev :: rest) =
      ((run (step reili ev).1 rest).1, (step reili ev).2 :: (run (step reili ev).1 rest).2) := rfl

theorem run_config (evs : List (Event W Req)) : ∀ (reili : RateLimiter Req),
    (run reili evs).1.requestsPerSecond = reili.requestsPerSecond ∧
    (run reili evs).1.burstRequests = reili.burstRequests ∧
    (run reili evs).1.visitorIdentifier = reili.visitorIdentifier := by
  induction evs with
  | nil => intro reili; exact ⟨rfl, rfl, rfl⟩
  | cons ev rest ih =>
    intro reili
    rw [run_cons]
    obtain ⟨a, b, c⟩ := ih (step reili ev).1
    obtain ⟨a', b', c'⟩ := step_config reili ev
    exact ⟨a.trans a', b.trans b', c.trans c'⟩

theorem run_WellFormed (evs : List (Event W Req)) : ∀ (reili : RateLimiter Req) (c : ℚ),
    0 ≤ reili.requestsPerSecond → 0 ≤ reili.burstRequests → WellFormed reili c →
    NonDecreasing evs → (∀ e ∈ evs, c ≤ e.time) →
    ∀ c', (∀ e ∈ evs, e.time ≤ c') → c ≤ c' → WellFormed (run reili evs).1 c' := by
  induction evs with
  | nil =>
    intro reili c _ _ h _ _ c' _ hc
    exact WellFormed_mono reili c c' h hc
  | cons ev rest ih =>
    intro reili c hr hb h hmono hlow c' hup hc
    rw [run_cons]
    obtain ⟨c1, c2, _⟩ := step_config reili ev
    have hmono' := List.pairwise_cons.mp hmono
    exact ih (step reili ev).1 ev.time (by rw [c1]; exact hr) (by rw [c2]; exact hb)
      (step_WellFormed reili c ev hr hb h (hlow ev (List.mem_cons_self _ _)))
      hmono'.2 hmono'.1 c' (fun e he => hup e (List.mem_cons_of_mem _ he))
      (hup ev (List.mem_cons_self _ _))

/-- Every state the program reaches from a new limiter by events at
non-decreasing clock readings satisfies the invariant at any reading not before
the last event. -/
theorem run_new_WellFormed (rps : ℚ) (b : Int) (ident : Req → String × Option String)
    (hr : 0 ≤ rps) (hb : 0 ≤ b) (evs : List (Event W Req)) (hmono : NonDecreasing evs)
    (c : ℚ) (hc : ∀ e ∈ evs, e.time ≤ c) :
    WellFormed (run (NewRateLimiter rps b ident) evs).1 c := by
  cases evs with
  | nil => exact WellFormed_new rps b ident c
  | cons ev rest =>
    refine run_WellFormed (ev :: rest) (NewRateLimiter rps b ident) ev.time hr hb
      (WellFormed_new rps b ident ev.time) hmono ?_ c hc (hc ev (List.mem_cons_self _ _))
    intro e he
    rcases List.mem_cons.mp he with heq | hmem
    · rw [heq]
    · exact (List.pairwise_cons.mp hmono).1 e hmem

/-- C3: when `IdentifyVisitor` returns an error, the handler returns whatever
the state of the guard, the limiter after the call is the limiter before it (the
visitors map is untouched: no entry is created for the returned identifier, no
`lastSeen` changes, no token is taken), and the effects are the log line and the
500 answer: the next handler is not called and no 429 is written. -/
theorem Limit_resolver_failure (reili : RateLimiter Req) (now : ℚ) (w : W) (r : Req)
    (id err : String) (h : reili.visitorIdentifier r = (id, some err)) :
    Limit reili now w r =
      some (reili, [Effect.log err, Effect.httpError w "Internal Server Error" 500]) ∧
    ∀ res, Limit reili now w r = some res →
      res.1 = reili ∧ res.1.visitors = reili.visitors ∧
      res.2 = [Effect.log err, Effect.httpError w "Internal Server Error" 500] ∧
      Effect.serveHTTP w r ∉ res.2 ∧
      Effect.httpError w "Too Many Requests" 429 ∉ res.2 := by
  refine ⟨Limit_error reili now w r id err h, ?_⟩
  intro res hres
  rw [Limit_error reili now w r id err h] at hres
  cases hres
  simp

/-- C7: for a limiter with `rps > 0` and `burst ≥ 1`, after every step of
every sequence of requests and cleanup passes at non-decreasing times, the
token level of every stored bucket lies in `[0, burst]`, and so does the level
that the refill of the next attempt computes at any later time: a rejected
request does not drive the level below zero and refill does not raise it above
the capacity.  This holds for the states the program reaches (`run`), and also
for those it would reach with the guard granted to every event (`runGranted`). -/
theorem token_level_bounds (rps : ℚ) (burst : Int) (ident : Req → String × Option String)
    (hr : 0 < rps) (hb : 1 ≤ burst) (evs : List (Event W Req)) (hmono : NonDecreasing evs)
    (k : ℕ) (id : VisitorID) (v : visitor) :
    ((run (NewRateLimiter rps burst ident) (evs.take k)).1.visitors.lookup id = some v →
      (0 ≤ v.limiter.tokens ∧ v.limiter.tokens ≤ (burst : ℚ)) ∧
      ∀ t, (∀ e ∈ evs.take k, e.time ≤ t) →
        0 ≤ v.limiter.refill t ∧ v.limiter.refill t ≤ (burst : ℚ)) ∧
    ((runGranted (NewRateLimiter rps burst ident) (evs.take k)).1.visitors.lookup id = some v →
      (0 ≤ v.limiter.tokens ∧ v.limiter.tokens ≤ (burst : ℚ)) ∧
      ∀ t, (∀ e ∈ evs.take k, e.time ≤ t) →
        0 ≤ v.limiter.refill t ∧ v.limiter.refill t ≤ (burst : ℚ)) := by
  refine ⟨?_, granted_token_level_bounds rps burst ident hr hb evs hmono k id v⟩
  intro hv
  have hb0 : (0 : Int) ≤ burst := by omega
  have hcfg := run_config (evs.take k) (NewRateLimiter rps burst ident)
  have hwf : ∀ c, (∀ e ∈ evs.take k, e.time ≤ c) →
      WellFormed (run (NewRateLimiter rps burst ident) (evs.take k)).1 c :=
    fun c hc => run_new_WellFormed rps burst ident (le_of_lt hr) hb0 (evs.take k)
      (NonDecreasing_take evs k hmono) c hc
  constructor
  · obtain ⟨_, _, h3, h4, _, _⟩ := hwf (lastTime (evs.take k)) (le_lastTime _) id v hv
    rw [hcfg.2.1] at h4
    exact ⟨h3, h4⟩
  · intro t ht
    obtain ⟨h1, h2, h3, _, h5, h6⟩ := hwf t ht id v hv
    rw [hcfg.1] at h1
    rw [hcfg.2.1] at h2
    have hq : (0 : ℚ) ≤ (burst : ℚ) := by exact_mod_cast hb0
    have := refill_bounds v.limiter t (by rw [h1]; exact le_of_lt hr) (by rw [h2]; exact hq) h3
      (by intro l hl; rw [h5] at hl; cases hl; exact h6)
    rw [h2] at this
    exact this

/-! ## The window bound -/

theorem allowed_some (x : RateLimiter Req × List (Effect W Req)) :
    allowed (some x) = served x.2 := by
  obtain ⟨s, out⟩ := x
  rfl

theorem admitted_le_one (reili : RateLimiter Req) (id : VisitorID) (a T : ℚ)
    (ev : Event W Req) : admitted reili id a T ev ≤ 1 := by
  cases ev with
  | request now w r => simp only [admitted]; split <;> omega
  | cleanup now => simp [admitted]

theorem admitted_outside (reili : RateLimiter Req) (id : VisitorID) (a T : ℚ)
    (ev : Event W Req) (h : ev.time < a ∨ a + T < ev.time) : admitted reili id a T ev = 0 := by
  cases ev with
  | request now w r =>
    simp only [admitted]
    rw [if_neg]
    rintro ⟨_, h1, h2, _⟩
    rcases h with h | h
    · exact absurd h1 (not_le.mpr h)
    · exact absurd h2 (not_le.mpr h)
  | cleanup now => rfl

/-- With the exclusive lock held nothing is admitted. -/
theorem admitted_held (reili : RateLimiter Req) (id : VisitorID) (a T : ℚ)
    (ev : Event W Req) (h : reili.mx.writer = true) : admitted reili id a T ev = 0 := by
  cases ev with
  | request now w r =>
    simp only [admitted]
    rw [if_neg]
    rintro ⟨hid, _, _, hs⟩
    rw [Limit_held reili now w r id h hid] at hs
    cases hs
  | cleanup now => rfl

theorem allowedInWindow_held (id : VisitorID) (a T : ℚ) (evs : List (Event W Req)) :
    ∀ (reili : RateLimiter Req), reili.mx.writer = true →
      allowedInWindow id a T reili evs = 0 := by
  induction evs with
  | nil => intro reili _; rfl
  | cons ev rest ih =>
    intro reili h
    simp only [allowedInWindow, admitted_held reili id a T ev h, step_held reili ev h, zero_add]
    exact ih reili h

/-- With the exclusive lock not held, a step either takes the exclusive lock
(a cleanup pass: nothing is admitted), or leaves it free, keeps the invariant
and pays for what it admits from the level of the visitor. -/
theorem step_free_pays (reili : RateLimiter Req) (c : ℚ) (ev : Event W Req) (id : VisitorID)
    (a T : ℚ) (hr : 0 ≤ reili.requestsPerSecond) (hb : 0 ≤ reili.burstRequests)
    (hfree : reili.mx.writer = false) (h : WellFormed reili c) (hc : c ≤ ev.time) :
    ((step reili ev).1.mx.writer = true ∧ admitted reili id a T ev = 0) ∨
    ((step reili ev).1.mx.writer = false ∧
      (admitted reili id a T ev : ℚ) + level (step reili ev).1 id ev.time ≤
        level reili id ev.time) := by
  cases ev with
  | request now w r =>
    right
    rw [step_request_free reili now w r hfree]
    refine ⟨by rw [LimitGranted_mx]; exact hfree, ?_⟩
    have hcfg := LimitGranted_config reili now w r
    simp only [Event.time] at hc ⊢
    rcases hid : reili.visitorIdentifier r with ⟨id', _ | err⟩
    · by_cases hne : id = id'
      · subst hne
        rw [LimitGranted_level reili c now w r id hr hb h hc hid]
        by_cases h1 : 1 ≤ level reili id now
        · rw [if_pos h1]
          have : (admitted reili id a T (Event.request now w r) : ℚ) ≤ 1 := by
            exact_mod_cast admitted_le_one reili id a T (Event.request now w r)
          linarith
        · rw [if_neg h1]
          have : admitted reili id a T (Event.request now w r) = 0 := by
            simp only [admitted]
            rw [if_neg]
            rintro ⟨_, _, _, hs⟩
            rw [Limit_free reili now w r hfree, allowed_some] at hs
            exact h1 ((served_iff reili now w r id hid).mp hs)
          rw [this]
          simp
      · have : admitted reili id a T (Event.request now w r) = 0 := by
          simp only [admitted]
          rw [if_neg]
          rintro ⟨hh, _⟩
          rw [hid] at hh
          exact hne (by cases hh; rfl)
        rw [this]
        rw [level_eq_of_lookup reili (LimitGranted reili now w r).1 id now hcfg.1 hcfg.2.1
          (LimitGranted_lookup_ne reili now w r id' id hid hne)]
        simp
    · have : admitted reili id a T (Event.request now w r) = 0 := by
        simp only [admitted]
        rw [if_neg]
        rintro ⟨hh, _⟩
        rw [hid] at hh
        cases hh
      rw [this]
      rw [LimitGranted_error reili now w r id' err hid]
      simp
  | cleanup now =>
    simp only [step]
    cases hL : reili.mx.Lock with
    | none =>
      right
      refine ⟨hfree, ?_⟩
      simp [admitted]
    | some mx =>
      left
      exact ⟨Lock_writer reili.mx mx hL, rfl⟩

/-- The window bound, by induction on the events still to come, from a state
with the exclusive lock not held that satisfies the invariant at `c`, a clock
reading not after these events: before the window the whole budget
`burst + rps * T` is available, inside it the current level plus what can still
refill, after it nothing is counted. -/
theorem window_bound_aux (rps : ℚ) (b : Int) (id : VisitorID) (a T : ℚ)
    (hr : 0 ≤ rps) (hb : 0 ≤ b) (hT : 0 ≤ T) (evs : List (Event W Req)) :
    ∀ (reili : RateLimiter Req) (c : ℚ),
    reili.requestsPerSecond = rps → reili.burstRequests = b → reili.mx.writer = false →
    WellFormed reili c → NonDecreasing evs → (∀ e ∈ evs, c ≤ e.time) →
    (c < a → (allowedInWindow id a T reili evs : ℚ) ≤ (b : ℚ) + rps * T) ∧
    (a ≤ c → c ≤ a + T →
      (allowedInWindow id a T reili evs : ℚ) ≤ level reili id c + rps * (a + T - c)) ∧
    (a + T < c → allowedInWindow id a T reili evs = 0) := by
  have hbq : (0 : ℚ) ≤ (b : ℚ) := by exact_mod_cast hb
  induction evs with
  | nil =>
    intro reili c hrps hbr _ hwf _ _
    have hl := level_bounds reili id c c (by rw [hrps]; exact hr) (by rw [hbr]; exact hb) hwf
      (le_refl _)
    simp only [allowedInWindow, Nat.cast_zero]
    refine ⟨fun _ => ?_, fun _ h2 => ?_, fun _ => trivial⟩
    · have := mul_nonneg hr hT
      linarith
    · have := mul_nonneg hr (sub_nonneg.mpr h2)
      linarith [hl.1]
  | cons ev rest ih =>
    intro reili c hrps hbr hfree hwf hmono hlow
    have hr' : 0 ≤ reili.requestsPerSecond := by rw [hrps]; exact hr
    have hb' : 0 ≤ reili.burstRequests := by rw [hbr]; exact hb
    have hct : c ≤ ev.time := hlow ev (List.mem_cons_self _ _)
    obtain ⟨c1, c2, _⟩ := step_config reili ev
    have hmono' := List.pairwise_cons.mp hmono
    have hlc := level_bounds reili id c c hr' hb' hwf (le_refl _)
    rw [hbr] at hlc
    have hcount : (allowedInWindow id a T reili (ev :: rest) : ℚ) =
        (admitted reili id a T ev : ℚ) + (allowedInWindow id a T (step reili ev).1 rest : ℚ) := by
      simp only [allowedInWindow, Nat.cast_add]
    rcases step_free_pays reili c ev id a T hr' hb' hfree hwf hct with ⟨hheld, hzero⟩ | ⟨hfree', hpay⟩
    · -- the pass took the exclusive lock: nothing is admitted from here on
      have hnone : (allowedInWindow id a T reili (ev :: rest) : ℚ) = 0 := by
        rw [hcount, hzero, allowedInWindow_held id a T rest _ hheld]
        simp
      refine ⟨fun _ => ?_, fun _ hcT => ?_, fun _ => by exact_mod_cast hnone⟩
      · rw [hnone]
        have := mul_nonneg hr hT
        linarith
      · rw [hnone]
        have := mul_nonneg hr (sub_nonneg.mpr hcT)
        linarith [hlc.1]
    · obtain ⟨ih1, ih2, ih3⟩ := ih (step reili ev).1 ev.time (c1.trans hrps) (c2.trans hbr)
        hfree' (step_WellFormed reili c ev hr' hb' hwf hct) hmono'.2 hmono'.1
      have hlt := level_bounds reili id c ev.time hr' hb' hwf hct
      have hgrow := level_growth reili id c c ev.time hr' hwf hct
      rw [hrps] at hgrow
      rw [hbr] at hlt
      have hl' := level_bounds (step reili ev).1 id ev.time ev.time
        (by rw [c1]; exact hr') (by rw [c2]; exact hb')
        (step_WellFormed reili c ev hr' hb' hwf hct) (le_refl _)
      have hout : ev.time < a ∨ a + T < ev.time → (admitted reili id a T ev : ℚ) = 0 := by
        intro h
        rw [admitted_outside reili id a T ev h]
        rfl
      have hafter : a + T < ev.time →
          (allowedInWindow id a T reili (ev :: rest) : ℚ) = 0 := by
        intro h
        rw [hcount, hout (Or.inr h), ih3 h]
        simp
      refine ⟨fun hca => ?_, fun hac hcT => ?_, fun hTc => ?_⟩
      · rcases lt_or_le ev.time a with hta | hta
        · rw [hcount, hout (Or.inl hta), zero_add]
          exact ih1 hta
        · rcases le_or_lt ev.time (a + T) with htT | htT
          · rw [hcount]
            have := ih2 hta htT
            have hmul : rps * (a + T - ev.time) ≤ rps * T :=
              mul_le_mul_of_nonneg_left (by linarith) hr
            linarith [hlt.2]
          · rw [hafter htT]
            have := mul_nonneg hr hT
            linarith
      · rcases le_or_lt ev.time (a + T) with htT | htT
        · rw [hcount]
          have := ih2 (le_trans hac hct) htT
          have hring : rps * (ev.time - c) + rps * (a + T - ev.time) = rps * (a + T - c) := by
            ring
          linarith
        · rw [hafter htT]
          have := mul_nonneg hr (sub_nonneg.mpr hcT)
          linarith [hlc.1]
      · have := hafter (lt_of_lt_of_le hTc hct)
        exact_mod_cast this

/-- Once the exclusive lock is held, a request is not answered, or (when its
identification fails) gets the 500 answer it gets in any state. -/
theorem answers_held (evs : List (Event W Req)) :
    ∀ (s s' : RateLimiter Req), s.mx.writer = true →
      s.visitorIdentifier = s'.visitorIdentifier →
      List.Forall₂ noNewAnswer (answers s evs) (answers s' (requestsOnly evs)) := by
  induction evs with
  | nil => intro s s' _ _; exact List.Forall₂.nil
  | cons ev rest ih =>
    intro s s' h hident
    cases ev with
    | request now w r =>
      have hreq : requestsOnly (Event.request now w r :: rest) =
          Event.request now w r :: requestsOnly rest := by
        simp [requestsOnly]
      rw [hreq]
      simp only [answers]
      rw [step_held s (Event.request now w r) h]
      refine List.Forall₂.cons ?_ (ih s _ h (hident.trans
        (step_config s' (Event.request now w r)).2.2.symm))
      rcases hid : s.visitorIdentifier r with ⟨id, _ | err⟩
      · left
        simp only [step, Limit_held s now w r id h hid]
      · right
        simp only [step, Limit_error s now w r id err hid,
          Limit_error s' now w r id err (by rw [← hident]; exact hid)]
    | cleanup now =>
      have hreq : requestsOnly (Event.cleanup now :: rest) = requestsOnly (W := W) rest := by
        simp [requestsOnly]
      rw [hreq]
      simp only [answers]
      rw [step_held s (Event.cleanup now) h]
      exact ih s s' h hident

/-- From a state with the exclusive lock not held, every request that is
answered gets the answer it gets in the run without the cleanup passes. -/
theorem answers_free (evs : List (Event W Req)) :
    ∀ (s : RateLimiter Req), s.mx.writer = false →
      List.Forall₂ noNewAnswer (answers s evs) (answers s (requestsOnly evs)) := by
  induction evs with
  | nil => intro s _; exact List.Forall₂.nil
  | cons ev rest ih =>
    intro s h
    cases ev with
    | request now w r =>
      have hreq : requestsOnly (Event.request now w r :: rest) =
          Event.request now w r :: requestsOnly rest := by
        simp [requestsOnly]
      rw [hreq]
      simp only [answers]
      refine List.Forall₂.cons (Or.inr rfl) (ih _ ?_)
      rw [step_request_free s now w r h, LimitGranted_mx]
      exact h
    | cleanup now =>
      have hreq : requestsOnly (Event.cleanup now :: rest) = requestsOnly (W := W) rest := by
        simp [requestsOnly]
      rw [hreq]
      simp only [answers, step]
      cases hL : s.mx.Lock with
      | none => exact ih s h
      | some mx =>
        exact answers_held rest (cleanupScan { s with mx := mx } now) s
          (Lock_writer s.mx mx hL) rfl

/-- C10: for a limiter with `rps > 0` and `burst ≥ 1`, every identity, every
sequence of requests and cleanup passes at non-decreasing times and every
window `[a, a + T]`, the number of requests of that identity allowed inside the
window is at most `burst + rps * T`; and every request that is answered gets
the answer it gets in the run without the cleanup passes, so deleting an idle
entry admits no request that is rejected with the entry kept (after a pass the
guard stays held and no identified request is answered at all). -/
theorem window_rate_bound (rps : ℚ) (burst : Int) (ident : Req → String × Option String)
    (hr : 0 < rps) (hb : 1 ≤ burst) (id : VisitorID) (evs : List (Event W Req))
    (hmono : NonDecreasing evs) (a T : ℚ) (hT : 0 ≤ T) :
    (allowedInWindow id a T (NewRateLimiter rps burst ident) evs : ℚ) ≤ (burst : ℚ) + rps * T ∧
    List.Forall₂ noNewAnswer (answers (NewRateLimiter rps burst ident) evs)
      (answers (NewRateLimiter rps burst ident) (requestsOnly evs)) := by
  have hb0 : (0 : Int) ≤ burst := by omega
  have hbq : (0 : ℚ) ≤ (burst : ℚ) := by exact_mod_cast hb0
  refine ⟨?_, answers_free evs (NewRateLimiter rps burst ident) rfl⟩
  cases evs with
  | nil =>
    simp only [allowedInWindow, Nat.cast_zero]
    have := mul_nonneg (le_of_lt hr) hT
    linarith
  | cons ev rest =>
    have hlow : ∀ e ∈ ev :: rest, ev.time ≤ e.time := by
      intro e he
      rcases List.mem_cons.mp he with heq | hmem
      · rw [heq]
      · exact (List.pairwise_cons.mp hmono).1 e hmem
    obtain ⟨h1, h2, h3⟩ := window_bound_aux rps burst id a T (le_of_lt hr) hb0 hT
      (ev :: rest) (NewRateLimiter rps burst ident) ev.time rfl rfl rfl
      (WellFormed_new rps burst ident ev.time) hmono hlow
    rcases lt_or_le ev.time a with hlt | hle
    · exact h1 hlt
    · rcases le_or_lt ev.time (a + T) with hle' | hlt'
      · have := h2 hle hle'
        have hl := level_bounds (NewRateLimiter rps burst ident) id ev.time ev.time
          (le_of_lt hr) hb0 (WellFormed_new rps burst ident ev.time) (le_refl _)
        have hmul : rps * (a + T - ev.time) ≤ rps * T :=
          mul_le_mul_of_nonneg_left (by linarith) (le_of_lt hr)
        have hl2 : level (NewRateLimiter rps burst ident) id ev.time ≤ (burst : ℚ) := hl.2
        linarith
      · rw [h3 hlt']
        have := mul_nonneg (le_of_lt hr) hT
        simp only [Nat.cast_zero]
        linarith

end Sequential

/-! ## The theorems at concrete inputs -/

/-- Witness for C3, on the limiter `drained` and the request `"bad"`, for which
identification fails. -/
theorem Limit_resolver_failure_witness :
    identOrFail "bad" = ("ghost", some "no identity") ∧
    Limit drained 0 () "bad" =
      some (drained,
        [Effect.log "no identity", Effect.httpError () "Internal Server Error" 500]) :=
  ⟨by decide,
    (Limit_resolver_failure drained 0 () "bad" "ghost" "no identity" (by decide)).1⟩

/-- Witness for C4, on `threeVisitors` at `301`:
the visitor seen at `0` goes, the one seen at `1` (idle for exactly 5 minutes)
stays. -/
theorem cleanupScan_keeps_exactly_fresh_witness :
    (cleanupScan threeVisitors 301).visitors.lookup "old" = none ∧
    (cleanupScan threeVisitors 301).visitors.lookup "edge" =
      some { id := "edge", limiter := { limit := 1, burst := 3, tokens := 2, last := some 1 },
             lastSeen := 1 } :=
  ⟨(cleanupScan_keeps_exactly_fresh threeVisitors 301).2.1 "old"
      { id := "old", limiter := { limit := 1, burst := 3, tokens := 0, last := some 0 },
        lastSeen := 0 }
      (by simp [threeVisitors, NewRateLimiter, AList.lookup_insert_ne, lookup_singleton_self])
      (by norm_num),
    (cleanupScan_keeps_exactly_fresh threeVisitors 301).2.2.1 "edge"
      { id := "edge", limiter := { limit := 1, burst := 3, tokens := 2, last := some 1 },
        lastSeen := 1 }
      (by simp [threeVisitors, NewRateLimiter, AList.lookup_insert_ne, lookup_singleton_self])
      (by norm_num)⟩

/-- Witness for C7, on the example scenario: after all six events the bucket
of `"a"` holds `0` tokens, within `[0, 3]`. -/
theorem token_level_bounds_witness :
    (0 : ℚ) < 1 ∧ (1 : Int) ≤ 3 ∧ NonDecreasing exampleScenario ∧
    (run (NewRateLimiter 1 3 identByName) (exampleScenario.take 6)).1.visitors.lookup "a" =
      some exampleFinalEntry ∧
    (0 ≤ exampleFinalEntry.limiter.tokens ∧ exampleFinalEntry.limiter.tokens ≤ ((3 : Int) : ℚ)) :=
  ⟨by norm_num, by norm_num, by norm_num [NonDecreasing, exampleScenario, Event.time],
    by norm_num [exampleScenario, exampleFinalEntry, run, step, Limit, getVisitor,
      RWMutex.RLock, RWMutex.RUnlock, RWMutex.Lock, NewRateLimiter, identByName,
      getVisitorGranted, addVisitor, Limiter.Allow, Limiter.refill, NewLimiter, cleanupScan,
      scanLoop, lookup_singleton_self],
    ((token_level_bounds 1 3 identByName (by norm_num) (by norm_num) exampleScenario
      (by norm_num [NonDecreasing, exampleScenario, Event.time]) 6 "a" exampleFinalEntry).1
      (by norm_num [exampleScenario, exampleFinalEntry, run, step, Limit, getVisitor,
        RWMutex.RLock, RWMutex.RUnlock, RWMutex.Lock, NewRateLimiter, identByName,
        getVisitorGranted, addVisitor, Limiter.Allow, Limiter.refill, NewLimiter, cleanupScan,
        scanLoop, lookup_singleton_self])).1⟩

/-- Witness for C10, on the example scenario (rate `1`, capacity `3`) and the
window `[0, 1]`. -/
theorem window_rate_bound_witness :
    (0 : ℚ) < 1 ∧ (1 : Int) ≤ 3 ∧ NonDecreasing exampleScenario ∧ (0 : ℚ) ≤ 1 ∧
    (allowedInWindow "a" 0 1 (NewRateLimiter 1 3 identByName) exampleScenario : ℚ) ≤
      ((3 : Int) : ℚ) + 1 * 1 :=
  ⟨by norm_num, by norm_num, by norm_num [NonDecreasing, exampleScenario, Event.time],
    by norm_num,
    (window_rate_bound 1 3 identByName (by norm_num) (by norm_num) "a"
      exampleScenario (by norm_num [NonDecreasing, exampleScenario, Event.time]) 0 1
      (by norm_num)).1⟩

/-! ## Requests after the first cleanup pass -/

/-- C1, evaluated on the code: one minute after `NewRateLimiter(1, 3, _)` the
cleanup goroutine makes its first pass and keeps the exclusive lock; the
handler invoked at `61` on a request identified as `"a"` waits in the `RLock`
of `getVisitor` and does not return: no 500, no 429, no call of the next
handler. -/
theorem request_after_first_pass_gets_no_answer :
    afterFirstPass.mx = { writer := true, readers := 0 } ∧
    Limit afterFirstPass 61 () "a" = none ∧
    (run (NewRateLimiter 1 3 identByName)
        [Event.cleanup 60, Event.request 61 () "a"]).2 = [some [], none] := by
  refine ⟨?_, ?_, ?_⟩ <;>
    norm_num [afterFirstPass, run, step, Limit, getVisitor, RWMutex.RLock, RWMutex.RUnlock,
      RWMutex.Lock, NewRateLimiter, identByName, cleanupScan, scanLoop]

/-- C2, evaluated on the code: on a limiter with rate `1` and capacity `3`,
after the first cleanup pass at `60`, four requests of the new identity `"b"`
at `61` all wait in `RLock`: none of the first three is allowed, the fourth is
not answered 429, and no entry is created for `"b"`. -/
theorem burst_after_first_pass_gets_no_answer :
    (run (NewRateLimiter 1 3 identByName) burstAfterAMinute).2 =
      [some [], none, none, none, none] ∧
    (run (NewRateLimiter 1 3 identByName) burstAfterAMinute).1.visitors.lookup "b" = none := by
  constructor <;>
    norm_num [burstAfterAMinute, requestsAt, run, step, Limit, getVisitor, RWMutex.RLock,
      RWMutex.RUnlock, RWMutex.Lock, NewRateLimiter, identByName, cleanupScan, scanLoop]

/-- C6, evaluated on the code: rate `1`, capacity `3`; after four requests of
`"a"` at `0` (served, served, served, 429) and the first cleanup pass at `60`,
the request of `"a"` at `61`, more than `1/rps` after the previous one, waits in
`RLock` and is not allowed.  Without the pass it is served. -/
theorem request_after_interval_waits_behind_first_pass :
    (run (NewRateLimiter 1 3 identByName) backAfterAMinute).2 =
      [some [Effect.serveHTTP () "a"], some [Effect.serveHTTP () "a"],
       some [Effect.serveHTTP () "a"], some [Effect.httpError () "Too Many Requests" 429],
       some [], none] ∧
    (run (NewRateLimiter 1 3 identByName) (requestsOnly backAfterAMinute)).2 =
      [some [Effect.serveHTTP () "a"], some [Effect.serveHTTP () "a"],
       some [Effect.serveHTTP () "a"], some [Effect.httpError () "Too Many Requests" 429],
       some [Effect.serveHTTP () "a"]] := by
  constructor <;>
    norm_num [backAfterAMinute, requestsOnly, run, step, Limit, getVisitor, RWMutex.RLock,
      RWMutex.RUnlock, RWMutex.Lock, NewRateLimiter, identByName, getVisitorGranted,
      addVisitor, Limiter.Allow, Limiter.refill, NewLimiter, cleanupScan, scanLoop,
      lookup_singleton_self]

/-- C8, evaluated on the code: rate `1`, capacity `3`; `"a"` is seen at `0`, the
first cleanup pass runs at `60`, and the `Limit` call for `"a"` at `61` waits in
`RLock` before the statement that refreshes `lastSeen`: the entry of `"a"` still
has `lastSeen = 0`. -/
theorem lastSeen_not_refreshed_after_first_pass :
    (run (NewRateLimiter 1 3 identByName) seenAgainAfterAMinute).2 =
      [some [Effect.serveHTTP () "a"], some [], none] ∧
    ((run (NewRateLimiter 1 3 identByName) seenAgainAfterAMinute).1.visitors.lookup "a").map
      (fun v => v.lastSeen) = some 0 := by
  constructor <;>
    norm_num [seenAgainAfterAMinute, run, step, Limit, getVisitor, RWMutex.RLock,
      RWMutex.RUnlock, RWMutex.Lock, NewRateLimiter, identByName, getVisitorGranted,
      addVisitor, Limiter.Allow, Limiter.refill, NewLimiter, cleanupScan, scanLoop,
      lookup_singleton_self]

/-! ## The guard -/

/-- Whatever the goroutines do, the cleanup goroutine completes at most one
scan, and from the end of that scan on the exclusive lock stays held. -/
theorem cleanup_passes_le_one {Req : Type} (schedule : List Move) :
    ∀ (c : Cleaner Req),
    ((c.passes = 0 ∧ (c.pc = CleanupPC.scan → c.reili.mx.writer = true)) ∨
      (c.passes = 1 ∧ c.pc ≠ CleanupPC.scan ∧ c.reili.mx.writer = true)) →
    ∀ c', c.moves schedule = some c' →
      c'.passes ≤ 1 ∧
        (c'.passes = 1 → c'.reili.mx.writer = true ∧ c'.reili.mx.RLock = none) := by
  induction schedule with
  | nil =>
    intro c hinv c' hc'
    simp only [Cleaner.moves, Option.some.injEq] at hc'
    subst hc'
    rcases hinv with ⟨h0, _⟩ | ⟨h1, _, hw⟩
    · exact ⟨by omega, fun h => by omega⟩
    · exact ⟨by omega, fun _ => ⟨hw, by simp [RWMutex.RLock, hw]⟩⟩
  | cons m rest ih =>
    intro c hinv c' hc'
    simp only [Cleaner.moves] at hc'
    cases hm : c.move m with
    | none => rw [hm] at hc'; cases hc'
    | some c1 =>
      rw [hm] at hc'
      refine ih c1 ?_ c' hc'
      cases m with
      | cleaner =>
        simp only [Cleaner.move, cleanupVisitors] at hm
        cases hpc : c.pc with
        | sleep =>
          rw [hpc] at hm
          simp only [Option.some.injEq] at hm
          subst hm
          rcases hinv with ⟨h0, _⟩ | ⟨h1, _, hw⟩
          · left; exact ⟨h0, fun h => by cases h⟩
          · right; exact ⟨h1, (fun h => by cases h), hw⟩
        | lock =>
          rw [hpc] at hm
          simp only [RWMutex.Lock] at hm
          by_cases hg : c.reili.mx.writer = true ∨ 0 < c.reili.mx.readers
          · rw [if_pos hg] at hm
            cases hm
          · rw [if_neg hg] at hm
            simp only [Option.some.injEq] at hm
            subst hm
            rcases hinv with ⟨h0, _⟩ | ⟨_, _, hw⟩
            · left; exact ⟨h0, fun _ => rfl⟩
            · exact absurd (Or.inl hw) hg
        | scan =>
          rw [hpc] at hm
          simp only [Option.some.injEq] at hm
          subst hm
          rcases hinv with ⟨h0, hw⟩ | ⟨_, hne, _⟩
          · right
            exact ⟨by simp [h0], (fun h => by cases h), hw hpc⟩
          · exact absurd hpc hne
      | enterGetVisitor =>
        simp only [Cleaner.move, RWMutex.RLock] at hm
        by_cases hw : c.reili.mx.writer = true
        · rw [if_pos hw] at hm
          cases hm
        · rw [if_neg hw] at hm
          simp only [Option.some.injEq] at hm
          subst hm
          exact hinv
      | leaveGetVisitor =>
        simp only [Cleaner.move] at hm
        by_cases hr : 0 < c.reili.mx.readers
        · rw [if_pos hr] at hm
          simp only [Option.some.injEq] at hm
          subst hm
          exact hinv
        · rw [if_neg hr] at hm
          cases hm

/-- C9, evaluated on the code: the first iteration of the loop of
`cleanupVisitors` takes the exclusive lock and scans, but the `Unlock` is
deferred to a return that never comes: after the first pass the goroutine
sleeps with the guard held, a `getVisitor` issued then cannot take its read
lock, and the second `Lock` of the goroutine itself cannot be taken, so the
second pass is never reached. -/
theorem cleanup_keeps_guard :
    ((Cleaner.start (NewRateLimiter 1 3 identByName) 0).moves
        [Move.cleaner, Move.cleaner, Move.cleaner]).map
      (fun c => (c.pc, c.reili.mx, c.deferred, c.passes, c.now)) =
      some (CleanupPC.sleep, { writer := true, readers := 0 }, 1, 1, 60) ∧
    ((Cleaner.start (NewRateLimiter 1 3 identByName) 0).moves
        [Move.cleaner, Move.cleaner, Move.cleaner, Move.enterGetVisitor]).isNone = true ∧
    ((Cleaner.start (NewRateLimiter 1 3 identByName) 0).moves
        [Move.cleaner, Move.cleaner, Move.cleaner, Move.cleaner]).map
      (fun c => (c.pc, c.reili.mx, c.deferred, c.passes, c.now)) =
      some (CleanupPC.lock, { writer := true, readers := 0 }, 1, 1, 120) ∧
    ((Cleaner.start (NewRateLimiter 1 3 identByName) 0).moves
        [Move.cleaner, Move.cleaner, Move.cleaner, Move.cleaner, Move.cleaner]).isNone = true := by
  refine ⟨?_, ?_, ?_, ?_⟩ <;>
    norm_num [Cleaner.start, Cleaner.moves, Cleaner.move, cleanupVisitors, RWMutex.Lock,
      RWMutex.RLock, NewRateLimiter, cleanupScan, scanLoop]

/-- C5, evaluated on the code: two goroutines serve requests of the same new
identity on a limiter with capacity `1`.  Both take the read lock, both find
the key absent, both run `addVisitor`: two visitors are allocated, the map
keeps the second, each goroutine takes the token of its own bucket and both
requests are allowed, where `min 2 1 = 1`.  When one goroutine runs after the
other, one visitor is allocated and one request is allowed. -/
theorem concurrent_first_requests_create_two :
    ((Concurrent.start 1 1 "a" 0 2).runSchedule [0, 0, 1, 1, 0, 1, 0, 1, 0, 1]).map
      (fun c => (c.pcs, c.shared.heap.length, c.shared.visitors.lookup "a", c.allowed)) =
      some ([RequestPC.done true, RequestPC.done true], 2, some 1, 2) ∧
    ((Concurrent.start 1 1 "a" 0 2).runSchedule [0, 0, 0, 0, 0, 1, 1, 1, 1, 1]).map
      (fun c => (c.pcs, c.shared.heap.length, c.shared.visitors.lookup "a", c.allowed)) =
      some ([RequestPC.done true, RequestPC.done false], 1, some 0, 1) := by
  constructor <;>
    norm_num [Concurrent.start, Concurrent.runSchedule, Concurrent.stepGoroutine,
      Concurrent.allowed, RWMutex.RLock, RWMutex.RUnlock, NewLimiter, Limiter.Allow,
      Limiter.refill, List.replicate, lookup_singleton_self]
